import Mathlib

/-!
# XIRR engine of `returns`: schedule model, polynomial builder, root finders

A shallow embedding of `account.go`, `cashflow.go`, `entry.go` and `polynom.go`,
followed by theorems on `Account.Entries`, `Account.xirr`, `Polynom.Eval`,
`Polynom.Secant` and `Polynom.Brent`.

Modelling decisions:

* `float64` is `F64`, an IEEE-754 binary64 value: NaN, a signed infinity, or a
  signed finite value `m * 2 ^ e` (zero is `m = 0`, `e = -1074`; normal numbers
  have `2 ^ 52 ≤ m < 2 ^ 53`; subnormals have `e = -1074`). Each arithmetic
  operation computes the exact result and rounds it to nearest, ties to even.
  Products and sums are rounded one by one (no fused multiply-add, as the
  compiler emits for amd64).
* `time.Time` is an instant counted in nanoseconds; `time.Duration` is an
  `int64` number of nanoseconds and `Time.Sub` saturates.
* `math.Pow` is library code: its leading special cases (`Pow(x, ±0) = 1`,
  `Pow(1, y) = 1`, `Pow(x, 1) = x`) are modelled; what the library does for
  other arguments is the parameter `powLib` of every definition that evaluates
  a polynomial. The runs on polynomials with an exponent 2 or 3 are stated for
  a `powLib` that squares and cubes by rounded multiplication; the square-and-
  multiply loop of `math.Pow` does so except where a power is subnormal.
* A Go `map[float64]float64` is an association list whose keys are pairwise
  different under the float comparison `==`; `range` visits it in list order
  (Go leaves the order open; with more than two terms the order can change the
  rounding of a sum, so the runs on polynomials of three terms are runs for the
  list order).
* `sort.Sort` is insertion sort on the `Less` of `cashflow.go`. It keeps entries
  with equal times in their order, which `sort.Sort` need not do; the theorems
  on `Entries` hold for any order of such entries.
* A Go `error` is a constructor of `Err`, one for each `fmt.Errorf` site; the
  formatted operands of the messages are left out.
* Dereferencing a nil `Closing` panics: the model returns `none`. `Entries` gets
  past a nil `Closing` in one case, no opening entry and no intermediate entry,
  where it returns a slice that holds the nil pointer; the model returns `none`
  there too, and `xirr` panics on such an account before it calls `Entries`.
* A loop with a counter and a cap recurses on the number of passes that remain.
-/

/-! ## IEEE-754 binary64 -/

/-- An IEEE-754 binary64 value. -/
inductive F64 where
  | nan : F64
  | inf (neg : Bool) : F64
  | fin (neg : Bool) (m : Nat) (e : Int) : F64
deriving DecidableEq, Repr

namespace F64

/-- The position of the leading bit, `⌊log₂ n⌋`, for `0 < n < 2 ^ 4096`, by bisection. -/
def ilog2 (n : Nat) : Nat :=
  [2048, 1024, 512, 256, 128, 64, 32, 16, 8, 4, 2, 1].foldl
    (fun k s => if 2 ^ (k + s) ≤ n then k + s else k) 0

/-- Round the exact value `(m + t) * 2 ^ e`, where `0 ≤ t < 1` and `t ≠ 0` exactly
when `sticky`, to the nearest binary64 (ties to even); `neg` is the sign. With
`sticky` set the caller supplies at least 54 significant bits in `m`. -/
def round (neg : Bool) (m : Nat) (e : Int) (sticky : Bool) : F64 :=
  if m = 0 then fin neg 0 (-1074)
  else
    let q : Int := max ((ilog2 m : Int) + e - 52) (-1074)
    if q ≤ e then
      if 971 < q then inf neg else fin neg (m * 2 ^ (e - q).toNat) q
    else
      let sh := (q - e).toNat
      let m0 := m / 2 ^ sh
      let r := m % 2 ^ sh
      let half := 2 ^ (sh - 1)
      let up : Bool := decide (half < r) || (decide (r = half) && (sticky || m0 % 2 == 1))
      let m1 := if up then m0 + 1 else m0
      let m2 := if m1 = 2 ^ 53 then 2 ^ 52 else m1
      let q2 := if m1 = 2 ^ 53 then q + 1 else q
      if 971 < q2 then inf neg else fin neg m2 q2

/-- A finite value as a signed multiple of `2 ^ (-1074)`, the smallest binary64 step. -/
def units (neg : Bool) (m : Nat) (e : Int) : Int :=
  if neg then -((m * 2 ^ (e + 1074).toNat : Nat) : Int) else ((m * 2 ^ (e + 1074).toNat : Nat) : Int)

/-- Conversion `float64(i)` of an integer. -/
def ofInt (i : Int) : F64 := round (decide (i < 0)) i.natAbs 0 false

instance instOfNatF64 (n : Nat) : OfNat F64 n := ⟨ofInt n⟩

/-- The constant `0.5`. -/
def half : F64 := fin false (2 ^ 52) (-53)

/-- Go `math.IsNaN`. -/
def isNaN : F64 → Bool
  | nan => true
  | _ => false

/-- Go `math.Abs`. -/
def abs : F64 → F64
  | nan => nan
  | inf _ => inf false
  | fin _ m e => fin false m e

/-- Unary minus. -/
def neg : F64 → F64
  | nan => nan
  | inf s => inf (!s)
  | fin s m e => fin (!s) m e

/-- Float addition. -/
def add : F64 → F64 → F64
  | nan, _ => nan
  | _, nan => nan
  | inf s, inf t => if s = t then inf s else nan
  | inf s, fin _ _ _ => inf s
  | fin _ _ _, inf t => inf t
  | fin s m e, fin t n f =>
    let u := units s m e + units t n f
    if u = 0 then fin (s && t) 0 (-1074) else round (decide (u < 0)) u.natAbs (-1074) false

/-- Float subtraction. -/
def sub (x y : F64) : F64 := add x (neg y)

/-- Float multiplication. -/
def mul : F64 → F64 → F64
  | nan, _ => nan
  | _, nan => nan
  | inf s, inf t => inf (xor s t)
  | inf s, fin t n _ => if n = 0 then nan else inf (xor s t)
  | fin s m _, inf t => if m = 0 then nan else inf (xor s t)
  | fin s m e, fin t n f => round (xor s t) (m * n) (e + f) false

/-- Float division. -/
def div : F64 → F64 → F64
  | nan, _ => nan
  | _, nan => nan
  | inf _, inf _ => nan
  | inf s, fin t _ _ => inf (xor s t)
  | fin s _ _, inf t => fin (xor s t) 0 (-1074)
  | fin s m e, fin t n f =>
    if n = 0 then (if m = 0 then nan else inf (xor s t))
    else if m = 0 then fin (xor s t) 0 (-1074)
    else round (xor s t) (m * 2 ^ 128 / n) (e - f - 128) (decide (m * 2 ^ 128 % n ≠ 0))

instance instAddF64 : Add F64 := ⟨add⟩
instance instSubF64 : Sub F64 := ⟨sub⟩
instance instMulF64 : Mul F64 := ⟨mul⟩
instance instDivF64 : Div F64 := ⟨div⟩
instance instNegF64 : Neg F64 := ⟨neg⟩

/-- Go `x == y` on floats: false when either side is NaN, and `-0 == +0`. -/
def eq : F64 → F64 → Bool
  | inf s, inf t => s == t
  | fin s m e, fin t n f => decide (units s m e = units t n f)
  | _, _ => false

/-- Go `x < y` on floats: false when either side is NaN. -/
def lt : F64 → F64 → Bool
  | nan, _ => false
  | _, nan => false
  | inf s, inf t => s && !t
  | inf s, fin _ _ _ => s
  | fin _ _ _, inf t => !t
  | fin s m e, fin t n f => decide (units s m e < units t n f)

/-- Go `x <= y` on floats. -/
def le (x y : F64) : Bool := lt x y || eq x y

/-- Go `x > y` on floats. -/
def gt (x y : F64) : Bool := lt y x

/-- Go `x >= y` on floats. -/
def ge (x y : F64) : Bool := le y x

/-- Go `x != y` on floats. -/
def ne (x y : F64) : Bool := !eq x y

end F64

/-- Go `math.Pow(x, y)`: the leading special cases, then the library routine. -/
def mathPow (powLib : F64 → F64 → F64) (x y : F64) : F64 :=
  if F64.eq y 0 || F64.eq x 1 then 1
  else if F64.eq y 1 then x
  else powLib x y

/-! ## Time -/

/-- An instant `time.Time`, in nanoseconds. -/
structure Time where
  ns : Int
deriving DecidableEq, Repr

/-- A `time.Duration`: an `int64` count of nanoseconds. -/
abbrev Duration := Int

/-- The smallest `time.Duration`. -/
def minDuration : Duration := -(2 ^ 63)

/-- The largest `time.Duration`. -/
def maxDuration : Duration := 2 ^ 63 - 1

/-- One hour, `time.Hour`, in nanoseconds. -/
def Hour : Duration := 3600000000000

/-- Go `t.Before(u)`. -/
def Time.Before (t u : Time) : Bool := decide (t.ns < u.ns)

/-- Go `t.After(u)`. -/
def Time.After (t u : Time) : Bool := decide (u.ns < t.ns)

/-- Go `t.Sub(u)`: the difference, saturated to the range of `Duration`. -/
def Time.Sub (t u : Time) : Duration :=
  if t.ns - u.ns < minDuration then minDuration
  else if maxDuration < t.ns - u.ns then maxDuration
  else t.ns - u.ns

/-- Go `d.Hours()`: `float64(d / Hour) + float64(d % Hour) / (60 * 60 * 1e9)`,
with the truncating integer division of Go. -/
def Duration.Hours (d : Duration) : F64 :=
  F64.ofInt (Int.tdiv d Hour) + F64.ofInt (Int.tmod d Hour) / F64.ofInt 3600000000000

/-! ## Entries and accounts (`entry.go`, `cashflow.go`, `account.go`) -/

/-- The struct `Entry`. -/
structure Entry where
  Time : Time
  Amount : F64
  Payee : String
deriving DecidableEq, Repr

/-- The slice type `Cashflow` (its elements are non-nil pointers). -/
abbrev Cashflow := List Entry

/-- The comparison `Cashflow.Less` on two elements. -/
def Cashflow.Less (a b : Entry) : Bool := a.Time.Before b.Time

/-- Go `sort.Sort(arr)` with `Cashflow.Less`: `a` may stand before `b` unless `b` is less. -/
def sortSort (arr : Cashflow) : Cashflow :=
  arr.insertionSort (fun a b => Cashflow.Less b a = false)

/-- The struct `Account`; `Opening` and `Closing` are pointers that may be nil. -/
structure Account where
  Name : String
  Cashflow : Cashflow
  Opening : Option Entry
  Closing : Option Entry
deriving Repr

/-- The filter loop of `Account.Entries`: skip what is after the closing time or has amount zero. -/
def keepEntry (closing : Entry) (c : Entry) : Bool :=
  !(c.Time.After closing.Time) && !(F64.eq c.Amount 0)

/-- The method `Account.Entries`; `none` is a run with a missing `Closing`: the nil
dereference in the filter loop or in `Less`, and the slice holding the nil pointer that
the code returns when there is neither an opening nor an intermediate entry. -/
def Account.Entries (account : Account) : Option (List Entry) :=
  match account.Closing with
  | none => none
  | some closing =>
    let arr : List Entry := []
    let arr := match account.Opening with
      | some o => arr ++ [o]
      | none => arr
    let arr := arr ++ account.Cashflow.filter (keepEntry closing)
    let arr := arr ++ [closing]
    some (sortSort arr)

/-! ## Polynomials (`polynom.go`) -/

/-- The errors of the package, one constructor for each `fmt.Errorf` site. -/
inductive Err where
  /-- Secant: "one or both or q0 and q1 are not a real number in first evaluation". -/
  | secantNotReal
  /-- Secant: "division by zero with p0, p1, q1=q0". -/
  | secantDivZero
  /-- Secant: "p is not a real number". -/
  | secantPNotReal
  /-- Secant: "q1 is not a real number". -/
  | secantQNotReal
  /-- Secant: "secant converges toward p but that doesn't appear to be a root." -/
  | secantNotRoot
  /-- Brent: "cannot find the root of an empty polynomial". -/
  | brentEmpty
  /-- Brent: "polynomial is not defined on interval [a, b]". -/
  | brentNotDefined
  /-- Brent: "polynomial does not have opposite signs at a and b". -/
  | brentSameSign
  /-- Brent: "reached maximum iterations without getting close enough to the root". -/
  | brentMaxIterations
  /-- Brent: "polynomial leads to an imaginary number on a". -/
  | brentANotReal
  /-- Brent: "polynomial leads to an imaginary number on b". -/
  | brentBNotReal
  /-- Brent: "polynomial leads to an imaginary number on c". -/
  | brentCNotReal
  /-- Brent: "got same values for polynomial at a and b". -/
  | brentSameValues
  /-- Brent: "polynomial leads to an imaginary number on s". -/
  | brentSNotReal
  /-- Brent: "brent converges toward b but that doesn't appear to be a root". -/
  | brentNotRoot
  /-- The method xirr: "failed to find an interval on which polynomial is >0 and <0 at the boundaries". -/
  | noInterval
  /-- The method xirr: "got root of 0, meaning infinite IRR". -/
  | infiniteIRR
deriving DecidableEq, Repr

/-- A Go `map[float64]float64`. -/
abbrev CoefMap := List (F64 × F64)

/-- Map read `m[k]`: the stored value, or the zero value when no key equals `k`. -/
def mapGet : CoefMap → F64 → F64
  | [], _ => 0
  | (k1, v1) :: rest, k => if F64.eq k1 k then v1 else mapGet rest k

/-- Map lookup with presence, `v, ok := m[k]`. -/
def mapFind : CoefMap → F64 → Option F64
  | [], _ => none
  | (k1, v1) :: rest, k => if F64.eq k1 k then some v1 else mapFind rest k

/-- Map write `m[k] = v`. -/
def mapSet : CoefMap → F64 → F64 → CoefMap
  | [], k, v => [(k, v)]
  | (k1, v1) :: rest, k, v => if F64.eq k1 k then (k, v) :: rest else (k1, v1) :: mapSet rest k v

/-- The struct `Polynom`. -/
structure Polynom where
  polynom : CoefMap
  xpos : Option F64
  xneg : Option F64
  iterations : Int
deriving DecidableEq, Repr

/-- The constructor `NewPolynom`. -/
def NewPolynom (polynom : CoefMap) : Polynom :=
  { polynom := polynom, xpos := none, xneg := none, iterations := 0 }

/-- The value computed by `Eval`: `r += coef * math.Pow(x, power)` over the map. -/
def evalSum (powLib : F64 → F64 → F64) (polynom : CoefMap) (x : F64) : F64 :=
  polynom.foldl (fun r pc => r + pc.2 * mathPow powLib x pc.1) 0

/-- The method `Polynom.Eval`: the value, and the receiver with its witnesses updated. -/
def Polynom.Eval (powLib : F64 → F64 → F64) (poly : Polynom) (x : F64) : F64 × Polynom :=
  let r := evalSum powLib poly.polynom x
  if !r.isNaN then
    if poly.xpos.isNone && F64.gt r 0 then (r, { poly with xpos := some x })
    else if poly.xneg.isNone && F64.lt r 0 then (r, { poly with xneg := some x })
    else (r, poly)
  else (r, poly)

/-- The method `Polynom.isRoot`. -/
def Polynom.isRoot (powLib : F64 → F64 → F64) (poly : Polynom) (x : F64) : Bool × Polynom :=
  let (r, poly) := poly.Eval powLib x
  (F64.lt (F64.abs r) 1, poly)

/-- How a run of `Secant` ended (bookkeeping of the model, not a Go value). -/
inductive SecantStop where
  /-- An error return before convergence. -/
  | failed
  /-- The convergence test `q1 == 0 || |p - p1| <= precision` was met. -/
  | converged
  /-- The loop ended because `depth` passed `max_depth`. -/
  | exhausted
deriving DecidableEq, Repr

/-- The Go results `(root, err)` of a solver, the receiver afterwards, and how the run ended. -/
structure SolverResult where
  root : F64
  err : Option Err
  poly : Polynom
  stop : SecantStop
deriving DecidableEq, Repr

/-- The `for depth := ...; depth <= max_depth; depth++` loop of `Secant`; the first
argument counts the iterations that remain. -/
def secantLoop (powLib : F64 → F64 → F64) (precision : F64) :
    Nat → Int → Polynom → F64 → F64 → F64 → F64 → SolverResult
  | 0, _, poly, _, _, _, _ => ⟨0, none, poly, .exhausted⟩
  | n + 1, depth, poly, p0, p1, q0, q1 =>
    let poly := { poly with iterations := depth }
    if F64.eq (q1 - q0) 0 then ⟨0, some .secantDivZero, poly, .failed⟩
    else
      let p := (q1 * p0 - p1 * q0) / (q1 - q0)
      if p.isNaN then ⟨0, some .secantPNotReal, poly, .failed⟩
      else
        let (q, poly) := poly.Eval powLib p
        if q.isNaN then ⟨0, some .secantQNotReal, poly, .failed⟩
        else if F64.eq q 0 || F64.le (F64.abs (p - p1)) precision then
          let (ok, poly) := poly.isRoot powLib p
          ⟨p, if ok then none else some .secantNotRoot, poly, .converged⟩
        else secantLoop powLib precision n (depth + 1) poly p1 p q1 q

/-- The method `Polynom.Secant`, with the bookkeeping of how it ended. -/
def secantRun (powLib : F64 → F64 → F64) (poly : Polynom) (p0 p1 precision : F64)
    (max_depth : Int) : SolverResult :=
  let (q0, poly) := poly.Eval powLib p0
  let (q1, poly) := poly.Eval powLib p1
  if q0.isNaN || q1.isNaN then ⟨0, some .secantNotReal, poly, .failed⟩
  else secantLoop powLib precision max_depth.toNat 1 poly p0 p1 q0 q1

/-- The method `Polynom.Secant`: `(root, err)` and the receiver afterwards. -/
def Polynom.Secant (powLib : F64 → F64 → F64) (poly : Polynom) (p0 p1 precision : F64)
    (max_depth : Int) : F64 × Option Err × Polynom :=
  let r := secantRun powLib poly p0 p1 precision max_depth
  (r.root, r.err, r.poly)

/-- The interpolation step of `Brent`: inverse quadratic interpolation, or secant. -/
def brentInterpolate (a b c f_a f_b f_c : F64) : F64 :=
  if F64.ne f_a f_c && F64.ne f_b f_c then
    (a * f_b * f_c) / ((f_a - f_b) * (f_a - f_c)) +
      (b * f_a * f_c) / ((f_b - f_a) * (f_b - f_c)) +
      (c * f_a * f_b) / ((f_c - f_a) * (f_c - f_b))
  else b - f_b * (b - a) / (f_b - f_a)

/-- The rejection test of `Brent` on the interpolated point `s`; `d` is the fresh
zero-valued variable of the loop body. -/
def brentReject (a b c d s : F64) (mflag : Int) : Bool :=
  (F64.lt s ((3 * a + b) / 4) && F64.gt s b) ||
    (decide (mflag = 1) && F64.ge (F64.abs (s - b)) (F64.abs (b - c) / 2)) ||
    (decide (mflag = 0) && F64.ge (F64.abs (s - b)) (F64.abs (c - d) / 2))

/-- The trial point of one `Brent` iteration and the new `mflag`. -/
def brentTrial (a b c f_a f_b f_c : F64) (mflag : Int) : F64 × Int :=
  let s := brentInterpolate a b c f_a f_b f_c
  if brentReject a b c 0 s mflag then ((a + b) / 2, 1) else (s, 0)

/-- The local variables of `Brent` that live across iterations, with the receiver. -/
structure BrentState where
  poly : Polynom
  a : F64
  b : F64
  c : F64
  f_a : F64
  f_b : F64
  f_c : F64
  mflag : Int
deriving DecidableEq, Repr

/-- The block `if poly.iterations != 0 { ... }` of the loop body of `Brent`: the three
values are computed afresh, then checked; an error is the `(root, err)` returned. -/
def brentReeval (powLib : F64 → F64 → F64) (st : BrentState) :
    Except (F64 × Option Err × Polynom) BrentState :=
  if st.poly.iterations ≠ 0 then
    let (f_a, poly) := st.poly.Eval powLib st.a
    let (f_b, poly) := poly.Eval powLib st.b
    let (f_c, poly) := poly.Eval powLib st.c
    if f_a.isNaN then .error (0, some .brentANotReal, poly)
    else if f_b.isNaN then .error (0, some .brentBNotReal, poly)
    else if f_c.isNaN then .error (0, some .brentCNotReal, poly)
    else .ok { st with poly := poly, f_a := f_a, f_b := f_b, f_c := f_c }
  else .ok st

/-- The loop body of `Brent` after the block above: interpolate or bisect, evaluate the
trial point, contract the bracket, reorder, count the iteration. -/
def brentStep (powLib : F64 → F64 → F64) (st : BrentState) :
    Except (F64 × Option Err × Polynom) BrentState :=
  if F64.eq st.f_a st.f_b then .error (0, some .brentSameValues, st.poly)
  else
    let (s, mflag) := brentTrial st.a st.b st.c st.f_a st.f_b st.f_c st.mflag
    let (f_s, poly) := st.poly.Eval powLib s
    if f_s.isNaN then .error (0, some .brentSNotReal, poly)
    else
      let c := st.b
      let f_c := st.f_b
      let (a, b, f_a, f_b) :=
        if F64.le (st.f_a * f_s) 0 then (st.a, s, st.f_a, f_s) else (s, st.b, f_s, st.f_b)
      let (a, b, f_a, f_b) :=
        if F64.lt (F64.abs f_a) (F64.abs f_b) then (b, a, f_b, f_a) else (a, b, f_a, f_b)
      let poly := { poly with iterations := poly.iterations + 1 }
      .ok { poly := poly, a := a, b := b, c := c, f_a := f_a, f_b := f_b, f_c := f_c,
            mflag := mflag }

/-- The `for f_b != 0 && |b - a| > precision` loop of `Brent`. The first argument bounds
the passes through the body; `max_depth + 1` of them are enough, since the body
is entered only while `poly.iterations <= max_depth`. `err` is the variable `err`
as set before the loop. -/
def brentLoop (powLib : F64 → F64 → F64) (precision : F64) (max_depth : Int) :
    Nat → BrentState → Option Err → F64 × Option Err × Polynom
  | fuel, st, err =>
    if F64.ne st.f_b 0 && F64.gt (F64.abs (st.b - st.a)) precision then
      if st.poly.iterations > max_depth then (0, some .brentMaxIterations, st.poly)
      else
        match fuel with
        | 0 => (0, some .brentMaxIterations, st.poly)
        | n + 1 =>
          match brentReeval powLib st with
          | .error r => r
          | .ok st =>
            match brentStep powLib st with
            | .error r => r
            | .ok st => brentLoop powLib precision max_depth n st err
    else
      let (ok, poly) := st.poly.isRoot powLib st.b
      (st.b, if ok then err else some .brentNotRoot, poly)

/-- The method `Polynom.Brent`: `(root, err)` and the receiver afterwards. -/
def Polynom.Brent (powLib : F64 → F64 → F64) (poly : Polynom) (a b precision : F64)
    (max_depth : Int) : F64 × Option Err × Polynom :=
  let poly := { poly with iterations := 0 }
  if poly.polynom.length = 0 then (0, some .brentEmpty, poly)
  else
    let (f_a, poly) := poly.Eval powLib a
    let (f_b, poly) := poly.Eval powLib b
    if f_a.isNaN || f_b.isNaN then (0, some .brentNotDefined, poly)
    else if F64.eq f_a 0 then (a, none, poly)
    else if F64.eq f_b 0 then (b, none, poly)
    else
      let err := if F64.gt (f_a * f_b) 0 then some Err.brentSameSign else none
      let (a, f_a, b, f_b) :=
        if F64.lt (F64.abs f_a) (F64.abs f_b) then (b, f_b, a, f_a) else (a, f_a, b, f_b)
      brentLoop powLib precision max_depth (max_depth + 1).toNat
        { poly := poly, a := a, b := b, c := a, f_a := f_a, f_b := f_b, f_c := f_a, mflag := 1 }
        err

/-! ## The method `xirr` (`account.go`) -/

/-- The package variable `maxPosNegPoints`. -/
def maxPosNegPoints : Int := 1000

/-- The package variable `precision`, `float64(0.000001)`. -/
def precision : F64 := 1 / 1000000

/-- The package variable `maxDepth`. -/
def maxDepth : Int := 100

/-- The reference start date `startDt` of `xirr`; `none` is the nil dereference of a
missing `Closing`. -/
def Account.startDt (account : Account) : Option Time :=
  match account.Opening with
  | some o => some o.Time
  | none =>
    match account.Cashflow with
    | c :: _ => some c.Time
    | [] => account.Closing.map (fun c => c.Time)

/-- The map key of an entry: `entry.Time.Sub(startDt).Hours() / 24.0 / 365.0`. -/
def exponent (startDt : Time) (entry : Entry) : F64 :=
  (entry.Time.Sub startDt).Hours / 24 / 365

/-- One pass of the accumulation loop: `coefficient[ddays/365.0] += entry.Amount`. -/
def addCoefficient (startDt : Time) (coefficient : CoefMap) (entry : Entry) : CoefMap :=
  mapSet coefficient (exponent startDt entry)
    (mapGet coefficient (exponent startDt entry) + entry.Amount)

/-- The deletion loop: `if v == 0 { delete(coefficient, k) }`. -/
def pruneZero (coefficient : CoefMap) : CoefMap :=
  coefficient.filter (fun kv => !(F64.eq kv.2 0))

/-- The map `coefficient` of `xirr` as it stands at the test `len(coefficient) >= 2`. -/
def Account.coefficient (account : Account) : Option CoefMap :=
  match account.startDt, account.Entries with
  | some startDt, some entries => some (pruneZero (entries.foldl (addCoefficient startDt) []))
  | _, _ => none

/-- The bracket discovery loop of `xirr`, from `i` on; the first argument bounds the passes. -/
def bracketLoop (powLib : F64 → F64 → F64) : Nat → Int → Polynom → Polynom
  | 0, _, poly => poly
  | n + 1, i, poly =>
    if (poly.xneg.isNone || poly.xpos.isNone) && decide (i ≤ maxPosNegPoints) then
      let poly := (poly.Eval powLib (F64.ofInt i)).2
      let poly := (poly.Eval powLib (-1 + 10 / (F64.ofInt i + 9))).2
      bracketLoop powLib n (i + 1) poly
    else poly

/-- The solver phases that a run of `xirr` went through (bookkeeping of the model). -/
inductive Phase where
  | secant
  | bracket
  | brent
deriving DecidableEq, Repr

/-- The solver part of `xirr` (from `poly.Secant` to the end of the fallback block):
`none` when bracket discovery fails, else the `(root, err)` in hand at `if root == 0`;
together with the phases run. -/
def solve (powLib : F64 → F64 → F64) (coefficient : CoefMap) :
    Option (F64 × Option Err) × List Phase :=
  let poly := NewPolynom coefficient
  let (root, err, poly) := poly.Secant powLib F64.half 1 precision maxDepth
  if err.isSome then
    let poly := bracketLoop powLib maxPosNegPoints.toNat 1 poly
    match poly.xneg, poly.xpos with
    | some a, some b =>
      let (root, err, _) := poly.Brent powLib a b precision maxDepth
      (some (root, err), [.secant, .bracket, .brent])
    | _, _ => (none, [.secant, .bracket])
  else (some (root, err), [.secant])

/-- The results `(irr, err)` of `xirr` and the solver phases that were run. -/
structure XirrRun where
  irr : F64
  err : Option Err
  phases : List Phase
deriving DecidableEq, Repr

/-- The method `Account.xirr` with its bookkeeping; `none` is the nil dereference of a
missing `Closing`. -/
def Account.xirrRun (powLib : F64 → F64 → F64) (account : Account) : Option XirrRun :=
  match account.coefficient with
  | none => none
  | some coefficient =>
    if coefficient.length ≥ 2 then
      match solve powLib coefficient with
      | (none, phases) => some ⟨0, some .noInterval, phases⟩
      | (some (root, err), phases) =>
        if F64.eq root 0 then some ⟨0, some .infiniteIRR, phases⟩
        else some ⟨-1 + 1 / root, err, phases⟩
    else some ⟨0, none, []⟩

/-- The method `Account.xirr`: its results `(irr, err)`. -/
def Account.xirr (powLib : F64 → F64 → F64) (account : Account) : Option (F64 × Option Err) :=
  (account.xirrRun powLib).map (fun r => (r.irr, r.err))

/-! ## Statements of the specification, and concrete accounts -/

/-- One day, in nanoseconds. -/
def DAY : Int := 86400000000000

/-- The entries of `arr` stand in non-decreasing order of time. -/
def timeSorted (arr : List Entry) : Prop :=
  arr.Sorted (fun a b => a.Time.ns ≤ b.Time.ns)

/-- The property of `Entries` as the specification words it: the result is non-decreasing
in time, has no entry with amount zero and no entry after the closing time. -/
def EntriesSpec (account : Account) : Prop :=
  ∀ cl arr, account.Closing = some cl → account.Entries = some arr →
    timeSorted arr ∧ ∀ e ∈ arr, F64.eq e.Amount 0 = false ∧ e.Time.After cl.Time = false

/-- An account emptied by the closing date: no opening entry, one deposit, closing balance zero. -/
def emptiedAccount : Account :=
  { Name := "Assets:Fund", Cashflow := [⟨⟨0⟩, F64.ofInt (-1000), "Deposit"⟩], Opening := none,
    Closing := some ⟨⟨365 * DAY⟩, 0, "Closing Balance"⟩ }

/-- A sequence of `Eval` calls on one `Polynom`: the receiver after the last call. -/
def evalSeq (powLib : F64 → F64 → F64) (poly : Polynom) (xs : List F64) : Polynom :=
  xs.foldl (fun p x => (p.Eval powLib x).2) poly

/-- The library routine left unmodelled: a `math.Pow` that is never consulted. -/
def powNone : F64 → F64 → F64 := fun _ _ => F64.nan

/-- The polynomial `-1 + x`. -/
def linePoly : CoefMap := [(0, F64.ofInt (-1)), (1, 1)]

/-- The polynomial of the one-year account of Scenario A: `-1000 + 1100 x`. -/
def scenarioPoly : CoefMap := [(0, F64.ofInt (-1000)), (1, 1100)]

/-- Scenario A of the specification: opening -1000 on 2023-01-01, closing 1100 on
2024-01-01 (365 days later), nothing in between. The times are the Unix times
of the two midnights (UTC), in nanoseconds. -/
def scenarioA : Account :=
  { Name := "Assets:Fund", Cashflow := [],
    Opening := some ⟨⟨1672531200000000000⟩, F64.ofInt (-1000), "Opening Balance"⟩,
    Closing := some ⟨⟨1704067200000000000⟩, 1100, "Closing Balance"⟩ }

/-- Scenario C of the specification: an account with a closing balance only. -/
def closingOnly : Account :=
  { Name := "Assets:Fund", Cashflow := [], Opening := none,
    Closing := some ⟨⟨365 * DAY⟩, 1100, "Closing Balance"⟩ }

/-- The double nearest to `10 / 11`, the root of `-1000 + 1100 x`. -/
def tenElevenths : F64 := 10 / 11

/-- All the entries that `xirr` can read have amount zero (under the float `==`). -/
def allAmountsZero (account : Account) : Prop :=
  (∀ o, account.Opening = some o → F64.eq o.Amount 0 = true) ∧
  (∀ c ∈ account.Cashflow, F64.eq c.Amount 0 = true) ∧
  (∀ cl, account.Closing = some cl → F64.eq cl.Amount 0 = true)

/-- The sum of the amounts of the entries of `arr` whose exponent equals `e`, added in the
order of `arr` to the zero value of a map element ("summed per exponent"). -/
def exponentSum (startDt : Time) (arr : List Entry) (e : F64) : F64 :=
  (arr.filter (fun x => F64.eq (exponent startDt x) e)).foldl (fun s x => s + x.Amount) 0

/-- An account without opening entry: two deposits on the first day, a deposit and its
reversal on day 100, the closing balance after one year. -/
def mixedAccount : Account :=
  { Name := "Assets:Fund",
    Cashflow := [⟨⟨0⟩, F64.ofInt (-1000), "Deposit"⟩, ⟨⟨0⟩, F64.ofInt (-500), "Deposit"⟩,
      ⟨⟨100 * DAY⟩, 300, "Refund"⟩, ⟨⟨100 * DAY⟩, F64.ofInt (-300), "Refund reversed"⟩],
    Opening := none,
    Closing := some ⟨⟨365 * DAY⟩, 1700, "Closing Balance"⟩ }

/-- An account with balance 1000 at both ends of a two-year period (730 days) and nothing
in between: its polynomial `1000 + 1000 x^2` has no real root. -/
def flatAccount : Account :=
  { Name := "Assets:Fund", Cashflow := [],
    Opening := some ⟨⟨0⟩, 1000, "Opening Balance"⟩,
    Closing := some ⟨⟨730 * DAY⟩, 1000, "Closing Balance"⟩ }

/-- The polynomial `1000 + 1000 x^2` of `flatAccount`. -/
def flatPoly : CoefMap := [(0, 1000), (2, 1000)]

/-- An account with opening 7 and closing 25 after three years (1095 days): its polynomial
is `7 + 25 x^3`. -/
def cubicAccount : Account :=
  { Name := "Assets:Fund", Cashflow := [],
    Opening := some ⟨⟨0⟩, 7, "Opening Balance"⟩,
    Closing := some ⟨⟨1095 * DAY⟩, 25, "Closing Balance"⟩ }

/-- The polynomial `7 + 25 x^3` of `cubicAccount`. -/
def cubicPoly : CoefMap := [(0, 7), (3, 25)]

/-- The library routine on the exponents 2 and 3, where its square-and-multiply loop
returns `x * x` and `x * (x * x)`, each product rounded. -/
def powSmall : F64 → F64 → F64 :=
  fun x y => if F64.eq y 2 then x * x else x * (x * x)

/-- An account without opening entry whose intermediate entries were supplied out of
order: day 151 first, then day 0. -/
def unsortedAccount : Account :=
  { Name := "Assets:Fund",
    Cashflow := [⟨⟨151 * DAY⟩, F64.ofInt (-500), "Deposit"⟩,
      ⟨⟨0⟩, F64.ofInt (-1000), "Deposit"⟩],
    Opening := none,
    Closing := some ⟨⟨365 * DAY⟩, 1600, "Closing Balance"⟩ }

/-- The reference start date as the specification words it: the time of the opening entry;
else the earliest time among the intermediate entries; else the closing time. -/
def startDtSpec (account : Account) : Option Time :=
  match account.Opening with
  | some o => some o.Time
  | none =>
    match account.Cashflow with
    | c :: rest => some (rest.foldl (fun t e => if e.Time.Before t then e.Time else t) c.Time)
    | [] => account.Closing.map (fun c => c.Time)

/-- Scenario E of the specification: an account whose amounts are all zero. -/
def zeroAccount : Account :=
  { Name := "Assets:Fund", Cashflow := [⟨⟨100 * DAY⟩, 0, "Nothing"⟩],
    Opening := some ⟨⟨0⟩, 0, "Opening Balance"⟩,
    Closing := some ⟨⟨365 * DAY⟩, 0, "Closing Balance"⟩ }

/-! ## The iterations of `Brent`, one by one -/

/-- The part of `Brent` before its loop: the state at the entry of the loop and the `err`
set so far; `none` when `Brent` returns before the loop. -/
def brentStart (powLib : F64 → F64 → F64) (poly : Polynom) (a b : F64) :
    Option (BrentState × Option Err) :=
  let poly := { poly with iterations := 0 }
  if poly.polynom.length = 0 then none
  else
    let (f_a, poly) := poly.Eval powLib a
    let (f_b, poly) := poly.Eval powLib b
    if f_a.isNaN || f_b.isNaN then none
    else if F64.eq f_a 0 then none
    else if F64.eq f_b 0 then none
    else
      let err := if F64.gt (f_a * f_b) 0 then some Err.brentSameSign else none
      let (a, f_a, b, f_b) :=
        if F64.lt (F64.abs f_a) (F64.abs f_b) then (b, f_b, a, f_a) else (a, f_a, b, f_b)
      some ({ poly := poly, a := a, b := b, c := a, f_a := f_a, f_b := f_b, f_c := f_a,
              mflag := 1 }, err)

/-- The state at the head of the loop of `Brent` after `n` full passes through its body,
from the state `st`; `none` when the loop ends or returns earlier. -/
def brentHead (powLib : F64 → F64 → F64) (precision : F64) (max_depth : Int) :
    Nat → BrentState → Option BrentState
  | 0, st => some st
  | n + 1, st =>
    if F64.ne st.f_b 0 && F64.gt (F64.abs (st.b - st.a)) precision then
      if st.poly.iterations > max_depth then none
      else
        match brentReeval powLib st with
        | .error _ => none
        | .ok st =>
          match brentStep powLib st with
          | .error _ => none
          | .ok st => brentHead powLib precision max_depth n st
    else none

/-- What pass `n` (counted from 0) of the loop of `Brent` decides, when the run gets to
its interpolation: the state after the block that computes the values afresh, the
interpolated point `s`, the trial point that is evaluated, and the new `mflag`. -/
def brentDecision (powLib : F64 → F64 → F64) (poly : Polynom) (a b precision : F64)
    (max_depth : Int) (n : Nat) : Option (BrentState × F64 × F64 × Int) :=
  match brentStart powLib poly a b with
  | none => none
  | some (st, _) =>
    match brentHead powLib precision max_depth n st with
    | none => none
    | some st =>
      if F64.ne st.f_b 0 && F64.gt (F64.abs (st.b - st.a)) precision then
        if st.poly.iterations > max_depth then none
        else
          match brentReeval powLib st with
          | .error _ => none
          | .ok st =>
            if F64.eq st.f_a st.f_b then none
            else
              some (st, brentInterpolate st.a st.b st.c st.f_a st.f_b st.f_c,
                (brentTrial st.a st.b st.c st.f_a st.f_b st.f_c st.mflag).1,
                (brentTrial st.a st.b st.c st.f_a st.f_b st.f_c st.mflag).2)
      else none

/-- The point `s` lies outside the interval between `(3a+b)/4` and `b`: below both ends or
above both ends. -/
def outsideInterval (a b s : F64) : Bool :=
  (F64.lt s ((3 * a + b) / 4) && F64.lt s b) || (F64.gt s ((3 * a + b) / 4) && F64.gt s b)

/-- The rejection rule as the specification words it, for one pass of the loop of `Brent`:
an interpolated point outside the interval is replaced by the midpoint and `mflag`
is set to 1. -/
def RejectionSpec (decision : BrentState × F64 × F64 × Int) : Prop :=
  outsideInterval decision.1.a decision.1.b decision.2.1 = true →
    decision.2.2.1 = (decision.1.a + decision.1.b) / 2 ∧ decision.2.2.2 = 1

/-- The polynomial `x^2 - 5`. -/
def parabola : CoefMap := [(0, F64.ofInt (-5)), (2, 1)]

/-- An account with opening 117, a cash flow of -261 after one year and closing 241 after
three years: its polynomial is `117 - 261 x + 241 x^3`. -/
def threeTermAccount : Account :=
  { Name := "Assets:Fund", Cashflow := [⟨⟨365 * DAY⟩, F64.ofInt (-261), "Withdrawal"⟩],
    Opening := some ⟨⟨0⟩, 117, "Opening Balance"⟩,
    Closing := some ⟨⟨1095 * DAY⟩, 241, "Closing Balance"⟩ }

/-- The polynomial `117 - 261 x + 241 x^3` of `threeTermAccount`. -/
def threeTermPoly : CoefMap := [(0, 117), (1, F64.ofInt (-261)), (3, 241)]

/-- The receiver and the bracket `(a, b)` that `xirr` hands to `Brent`: the polynomial after
the secant phase and bracket discovery, and its witnesses `xneg` and `xpos`; `none`
when `xirr` does not get to `Brent`. -/
def xirrBracket (powLib : F64 → F64 → F64) (coefficient : CoefMap) :
    Option (Polynom × F64 × F64) :=
  let poly := NewPolynom coefficient
  let (_, err, poly) := poly.Secant powLib F64.half 1 precision maxDepth
  if err.isSome then
    let poly := bracketLoop powLib maxPosNegPoints.toNat 1 poly
    match poly.xneg, poly.xpos with
    | some a, some b => some (poly, a, b)
    | _, _ => none
  else none

/-- The double `1.6666666666666665`, the point that inverse quadratic interpolation yields
in the second pass of `Brent` on `x^2 - 5` from the bracket `[-3, 2]`. -/
def parabolaPoint : F64 := F64.fin false 7505999378950826 (-52)

/-- The double `-11.560403910306585`, the negative witness of `threeTermPoly` after the
secant phase of `xirr`. -/
def threeTermLow : F64 := F64.fin true 6507928842838645 (-49)

/-- The double `0.49945695080877683`, the better end of the bracket in the second pass
of `Brent` on `threeTermPoly`. -/
def threeTermBest : F64 := F64.fin false 8997416550200046 (-54)

/-- The double `0.7066503944643614`, the point that inverse quadratic interpolation yields
in the second pass of `Brent` on `threeTermPoly`. -/
def threeTermPoint : F64 := F64.fin false 6364940906381824 (-53)

/-- One pass of the loop of `Brent` at its rejection test: the local variables `a`, `b`,
`c`, `mflag`, the interpolated point, the trial point that is evaluated, the new `mflag`,
and whether the interpolated point is outside the interval. -/
structure PassSummary where
  a : F64
  b : F64
  c : F64
  mflag : Int
  interpolated : F64
  trial : F64
  newMflag : Int
  outside : Bool
deriving DecidableEq, Repr

/-- The summary of a pass reported by `brentDecision`. -/
def decisionSummary (decision : BrentState × F64 × F64 × Int) : PassSummary :=
  { a := decision.1.a, b := decision.1.b, c := decision.1.c, mflag := decision.1.mflag,
    interpolated := decision.2.1, trial := decision.2.2.1, newMflag := decision.2.2.2,
    outside := outsideInterval decision.1.a decision.1.b decision.2.1 }

/-- The double `-1.8214943369994328`, the rate that `xirr` returns for `threeTermAccount`. -/
def threeTermRate : F64 := F64.fin true 8203281217368114 (-52)

/-- The property of a solver result `(root, err, receiver)` as the specification words it: a
value returned with no error is one at which the polynomial is strictly below 1 in
absolute value. -/
def VerifiedSpec (powLib : F64 → F64 → F64) (poly : Polynom)
    (result : F64 × Option Err × Polynom) : Prop :=
  result.2.1 = none → F64.lt (F64.abs (poly.Eval powLib result.1).1) 1 = true

/-! ## Theorems -/

/-! ### C1: `Account.Entries` -/

theorem lessRel_iff (a b : Entry) : Cashflow.Less b a = false ↔ a.Time.ns ≤ b.Time.ns := by
  simp [Cashflow.Less, Time.Before]

theorem sortSort_sorted (arr : List Entry) : timeSorted (sortSort arr) := by
  haveI : IsTotal Entry (fun a b => Cashflow.Less b a = false) :=
    ⟨fun a b => by simp only [lessRel_iff]; exact le_total _ _⟩
  haveI : IsTrans Entry (fun a b => Cashflow.Less b a = false) :=
    ⟨fun a b c hab hbc => by
      simp only [lessRel_iff] at hab hbc ⊢; exact le_trans hab hbc⟩
  have h := List.sorted_insertionSort (fun a b : Entry => Cashflow.Less b a = false) arr
  unfold timeSorted sortSort
  exact List.Pairwise.imp (fun {a b} hab => (lessRel_iff a b).1 hab) h

theorem sortSort_perm (arr : List Entry) : (sortSort arr).Perm arr :=
  List.perm_insertionSort _ arr

/-- The list that `Entries` hands to `sort.Sort`. -/
theorem Entries_eq (account : Account) (cl : Entry) (h : account.Closing = some cl) :
    account.Entries =
      some (sortSort (account.Opening.toList ++ account.Cashflow.filter (keepEntry cl) ++ [cl])) := by
  unfold Account.Entries
  rw [h]
  cases account.Opening <;> simp

/-- C1 (the code at the failing input): for the account emptied by its closing date,
`Entries` returns the closing entry although its amount is zero, so the result does not
leave out every entry with a zero amount, as the comment on `Entries` and the
specification say it does. -/
theorem C1_counterexample : ¬ EntriesSpec emptiedAccount := by
  intro h
  have h2 := (h ⟨⟨365 * DAY⟩, 0, "Closing Balance"⟩
    [⟨⟨0⟩, F64.ofInt (-1000), "Deposit"⟩, ⟨⟨365 * DAY⟩, 0, "Closing Balance"⟩] rfl (by decide!)).2
    ⟨⟨365 * DAY⟩, 0, "Closing Balance"⟩ (by simp)
  exact absurd h2.1 (by decide!)

/-- Where the entries returned by `Entries` come from. -/
theorem Entries_members (account : Account) (cl : Entry) (arr : List Entry)
    (hcl : account.Closing = some cl) (harr : account.Entries = some arr) :
    arr.Perm (account.Opening.toList ++ account.Cashflow.filter (keepEntry cl) ++ [cl]) ∧
    ∀ e ∈ arr, e = cl ∨ account.Opening = some e ∨
      (e ∈ account.Cashflow ∧ F64.eq e.Amount 0 = false ∧ e.Time.After cl.Time = false) := by
  rw [Entries_eq account cl hcl] at harr
  have harr2 := Option.some.inj harr
  subst harr2
  refine ⟨sortSort_perm _, ?_⟩
  intro e he
  have he2 := (sortSort_perm _).mem_iff.1 he
  simp only [List.mem_append, List.mem_singleton, List.mem_filter, Option.mem_toList,
    Option.mem_def] at he2
  rcases he2 with (ho | ⟨hc, hk⟩) | hcl2
  · exact Or.inr (Or.inl ho)
  · refine Or.inr (Or.inr ⟨hc, ?_⟩)
    simpa [keepEntry, and_comm] using hk
  · exact Or.inl hcl2

/-- C1 (what `Entries` returns): for every account with a closing entry, the result of
`Entries` is non-decreasing in time and is a rearrangement of the opening entry (if
any), the intermediate entries that are not after the closing time and have a non-zero
amount, and the closing entry. The two tests reach the intermediate entries only: the
opening and closing entries are appended outside the filter loop. -/
theorem C1_entries_sorted_filtered (account : Account) (cl : Entry) (arr : List Entry)
    (hcl : account.Closing = some cl) (harr : account.Entries = some arr) :
    timeSorted arr ∧
    arr.Perm (account.Opening.toList ++ account.Cashflow.filter (keepEntry cl) ++ [cl]) ∧
    ∀ e ∈ arr, e = cl ∨ account.Opening = some e ∨
      (e ∈ account.Cashflow ∧ F64.eq e.Amount 0 = false ∧ e.Time.After cl.Time = false) := by
  have hs : timeSorted arr := by
    rw [Entries_eq account cl hcl] at harr
    rw [← Option.some.inj harr]
    exact sortSort_sorted _
  exact ⟨hs, (Entries_members account cl arr hcl harr).1,
    (Entries_members account cl arr hcl harr).2⟩

/-- C1 (witness): what `Entries` returns for the account emptied by its closing date. -/
theorem C1_entries_sorted_filtered_witness :
    timeSorted [⟨⟨0⟩, F64.ofInt (-1000), "Deposit"⟩, ⟨⟨365 * DAY⟩, 0, "Closing Balance"⟩] ∧
    List.Perm [⟨⟨0⟩, F64.ofInt (-1000), "Deposit"⟩, ⟨⟨365 * DAY⟩, 0, "Closing Balance"⟩]
      (emptiedAccount.Opening.toList ++
        emptiedAccount.Cashflow.filter (keepEntry ⟨⟨365 * DAY⟩, 0, "Closing Balance"⟩) ++
        [⟨⟨365 * DAY⟩, 0, "Closing Balance"⟩]) ∧
    ∀ e ∈ [(⟨⟨0⟩, F64.ofInt (-1000), "Deposit"⟩ : Entry), ⟨⟨365 * DAY⟩, 0, "Closing Balance"⟩],
      e = ⟨⟨365 * DAY⟩, 0, "Closing Balance"⟩ ∨ emptiedAccount.Opening = some e ∨
      (e ∈ emptiedAccount.Cashflow ∧ F64.eq e.Amount 0 = false ∧
        e.Time.After (⟨⟨365 * DAY⟩, 0, "Closing Balance"⟩ : Entry).Time = false) :=
  C1_entries_sorted_filtered emptiedAccount ⟨⟨365 * DAY⟩, 0, "Closing Balance"⟩
    [⟨⟨0⟩, F64.ofInt (-1000), "Deposit"⟩, ⟨⟨365 * DAY⟩, 0, "Closing Balance"⟩] rfl (by decide!)

/-! ### Facts on the float comparisons -/

theorem F64.zero_def : (0 : F64) = F64.fin false 0 (-1074) := by decide!

theorem F64.one_def : (1 : F64) = F64.fin false (2 ^ 52) (-52) := by decide!

theorem F64.lt_nan_left (y : F64) : F64.lt F64.nan y = false := by
  cases y <;> rfl

theorem F64.lt_nan_right (x : F64) : F64.lt x F64.nan = false := by
  cases x <;> rfl

theorem F64.lt_asymm (x y : F64) (h : F64.lt x y = true) : F64.lt y x = false := by
  cases x <;> cases y <;> simp_all [F64.lt]
  omega

theorem F64.units_abs (s : Bool) (m : Nat) (e : Int) :
    F64.units false m e = |F64.units s m e| := by
  cases s <;> simp only [F64.units, Bool.false_eq_true, if_false, if_true, abs_neg] <;>
    exact (abs_of_nonneg (by positivity)).symm

theorem F64.abs_lt_one_of_eq_zero (x : F64) (h : F64.eq x 0 = true) :
    F64.lt (F64.abs x) 1 = true := by
  rw [F64.zero_def] at h
  rw [F64.one_def]
  cases x with
  | nan => simp [F64.eq] at h
  | inf s => simp [F64.eq] at h
  | fin s m e =>
    simp only [F64.eq, decide_eq_true_eq] at h
    simp only [F64.abs, F64.lt, decide_eq_true_eq]
    rw [F64.units_abs s m e, h]
    decide!

/-! ### The method `Eval` -/

theorem Eval_fst (powLib : F64 → F64 → F64) (poly : Polynom) (x : F64) :
    (poly.Eval powLib x).1 = evalSum powLib poly.polynom x := by
  unfold Polynom.Eval
  simp only
  split_ifs <;> rfl

theorem Eval_polynom (powLib : F64 → F64 → F64) (poly : Polynom) (x : F64) :
    (poly.Eval powLib x).2.polynom = poly.polynom := by
  unfold Polynom.Eval
  simp only
  split_ifs <;> rfl

theorem Eval_iterations (powLib : F64 → F64 → F64) (poly : Polynom) (x : F64) :
    (poly.Eval powLib x).2.iterations = poly.iterations := by
  unfold Polynom.Eval
  simp only
  split_ifs <;> rfl

theorem Eval_xpos (powLib : F64 → F64 → F64) (poly : Polynom) (x : F64) :
    (poly.Eval powLib x).2.xpos =
      match poly.xpos with
      | some w => some w
      | none => if F64.gt (evalSum powLib poly.polynom x) 0 then some x else none := by
  unfold Polynom.Eval
  cases hr : evalSum powLib poly.polynom x <;> cases hp : poly.xpos <;>
    simp [F64.isNaN, F64.gt, F64.lt_nan_right, hp] <;> split_ifs <;> simp_all

theorem Eval_xneg (powLib : F64 → F64 → F64) (poly : Polynom) (x : F64) :
    (poly.Eval powLib x).2.xneg =
      match poly.xneg with
      | some w => some w
      | none => if F64.lt (evalSum powLib poly.polynom x) 0 then some x else none := by
  unfold Polynom.Eval
  by_cases hgt : F64.gt (evalSum powLib poly.polynom x) 0 = true
  · have hlt : F64.lt (evalSum powLib poly.polynom x) 0 = false := F64.lt_asymm _ _ hgt
    cases hr : evalSum powLib poly.polynom x <;> cases hp : poly.xpos <;> cases hn : poly.xneg <;>
      simp_all [F64.isNaN]
  · cases hr : evalSum powLib poly.polynom x <;> cases hp : poly.xpos <;> cases hn : poly.xneg <;>
      simp_all [F64.isNaN, F64.lt_nan_left] <;> split_ifs <;> simp_all

theorem evalSeq_polynom (powLib : F64 → F64 → F64) (xs : List F64) (poly : Polynom) :
    (evalSeq powLib poly xs).polynom = poly.polynom := by
  induction xs generalizing poly with
  | nil => rfl
  | cons x xs ih =>
    show (evalSeq powLib (poly.Eval powLib x).2 xs).polynom = poly.polynom
    rw [ih, Eval_polynom]

theorem evalSeq_xpos (powLib : F64 → F64 → F64) (xs : List F64) (poly : Polynom) :
    (evalSeq powLib poly xs).xpos =
      match poly.xpos with
      | some w => some w
      | none => xs.find? (fun x => F64.gt (evalSum powLib poly.polynom x) 0) := by
  induction xs generalizing poly with
  | nil => cases h : poly.xpos <;> simp [evalSeq, h]
  | cons x xs ih =>
    show (evalSeq powLib (poly.Eval powLib x).2 xs).xpos = _
    rw [ih, Eval_xpos, Eval_polynom]
    cases h : poly.xpos with
    | some w => simp
    | none =>
      by_cases hg : F64.gt (evalSum powLib poly.polynom x) 0 = true
      · simp [hg, List.find?]
      · simp [hg, List.find?]

theorem evalSeq_xneg (powLib : F64 → F64 → F64) (xs : List F64) (poly : Polynom) :
    (evalSeq powLib poly xs).xneg =
      match poly.xneg with
      | some w => some w
      | none => xs.find? (fun x => F64.lt (evalSum powLib poly.polynom x) 0) := by
  induction xs generalizing poly with
  | nil => cases h : poly.xneg <;> simp [evalSeq, h]
  | cons x xs ih =>
    show (evalSeq powLib (poly.Eval powLib x).2 xs).xneg = _
    rw [ih, Eval_xneg, Eval_polynom]
    cases h : poly.xneg with
    | some w => simp
    | none =>
      by_cases hg : F64.lt (evalSum powLib poly.polynom x) 0 = true
      · simp [hg, List.find?]
      · simp [hg, List.find?]

/-! ### C10: the witnesses `xpos` and `xneg` are written once -/

/-- C10: on a freshly constructed `Polynom`, after any finite sequence of `Eval` calls
`xpos` is the argument of the first call whose value was strictly positive (unset
when there is none) and `xneg` the argument of the first call whose value was
strictly negative; the value a call returns is the polynomial sum whatever the
witnesses hold, and a witness that is set is kept by every later `Eval`. -/
theorem C10_witnesses_first_write (powLib : F64 → F64 → F64) (c : CoefMap) (xs : List F64) :
    (evalSeq powLib (NewPolynom c) xs).xpos =
        xs.find? (fun x => F64.gt (evalSum powLib c x) 0) ∧
    (evalSeq powLib (NewPolynom c) xs).xneg =
        xs.find? (fun x => F64.lt (evalSum powLib c x) 0) ∧
    (∀ (xpos xneg : Option F64) (it : Int) (x : F64),
        (Polynom.Eval powLib ⟨c, xpos, xneg, it⟩ x).1 = evalSum powLib c x) ∧
    (∀ (w : F64) (xneg : Option F64) (it : Int) (ys : List F64),
        (evalSeq powLib ⟨c, some w, xneg, it⟩ ys).xpos = some w) ∧
    (∀ (w : F64) (xpos : Option F64) (it : Int) (ys : List F64),
        (evalSeq powLib ⟨c, xpos, some w, it⟩ ys).xneg = some w) := by
  refine ⟨?_, ?_, ?_, ?_, ?_⟩
  · rw [evalSeq_xpos]; rfl
  · rw [evalSeq_xneg]; rfl
  · intro xpos xneg it x
    rw [Eval_fst]
  · intro w xneg it ys
    rw [evalSeq_xpos]
  · intro w xpos it ys
    rw [evalSeq_xneg]

/-- C10 (witness): on `-1 + x`, the calls at 1, 0, 2, 3, 0.5 return 0, -1, 1, 2, -0.5, and
leave `xpos = 2`, `xneg = 0`. -/
theorem C10_witnesses_first_write_witness :
    (evalSeq powNone (NewPolynom linePoly) [1, 0, 2, 3, F64.half]).xpos = some 2 ∧
    (evalSeq powNone (NewPolynom linePoly) [1, 0, 2, 3, F64.half]).xneg = some 0 :=
  ⟨(C10_witnesses_first_write powNone linePoly [1, 0, 2, 3, F64.half]).1.trans (by decide!),
   (C10_witnesses_first_write powNone linePoly [1, 0, 2, 3, F64.half]).2.1.trans (by decide!)⟩

/-! ### The solvers `Secant` and `Brent` -/

theorem isRoot_fst (powLib : F64 → F64 → F64) (poly : Polynom) (x : F64) :
    (poly.isRoot powLib x).1 = F64.lt (F64.abs (evalSum powLib poly.polynom x)) 1 := by
  simp [Polynom.isRoot, Eval_fst]

theorem isRoot_polynom (powLib : F64 → F64 → F64) (poly : Polynom) (x : F64) :
    (poly.isRoot powLib x).2.polynom = poly.polynom := by
  simp [Polynom.isRoot, Eval_polynom]

/-- What a run of the loop of `Secant` returns, by the way it ended. -/
theorem secantLoop_spec (powLib : F64 → F64 → F64) (precision : F64) (n : Nat) :
    ∀ (depth : Int) (poly : Polynom) (p0 p1 q0 q1 : F64),
      (secantLoop powLib precision n depth poly p0 p1 q0 q1).poly.polynom = poly.polynom ∧
      ((secantLoop powLib precision n depth poly p0 p1 q0 q1).stop = .failed →
        (secantLoop powLib precision n depth poly p0 p1 q0 q1).err ≠ none ∧
        (secantLoop powLib precision n depth poly p0 p1 q0 q1).root = 0) ∧
      ((secantLoop powLib precision n depth poly p0 p1 q0 q1).stop = .exhausted →
        (secantLoop powLib precision n depth poly p0 p1 q0 q1).err = none ∧
        (secantLoop powLib precision n depth poly p0 p1 q0 q1).root = 0) ∧
      ((secantLoop powLib precision n depth poly p0 p1 q0 q1).stop = .converged →
        ((secantLoop powLib precision n depth poly p0 p1 q0 q1).err = none ↔
          F64.lt (F64.abs (evalSum powLib poly.polynom
            (secantLoop powLib precision n depth poly p0 p1 q0 q1).root)) 1 = true)) := by
  induction n with
  | zero =>
    intro depth poly p0 p1 q0 q1
    simp [secantLoop]
  | succ n ih =>
    intro depth poly p0 p1 q0 q1
    rw [secantLoop]
    simp only
    by_cases h1 : F64.eq (q1 - q0) 0 = true
    · simp [h1]
    · by_cases h2 : F64.isNaN ((q1 * p0 - p1 * q0) / (q1 - q0)) = true
      · simp [h1, h2]
      · by_cases h3 : F64.isNaN (Polynom.Eval powLib { poly with iterations := depth }
            ((q1 * p0 - p1 * q0) / (q1 - q0))).1 = true
        · simp [h1, h2, h3, Eval_polynom]
        · by_cases h4 : (F64.eq (Polynom.Eval powLib { poly with iterations := depth }
              ((q1 * p0 - p1 * q0) / (q1 - q0))).1 0 ||
              F64.le (F64.abs ((q1 * p0 - p1 * q0) / (q1 - q0) - p1)) precision) = true
          · simp only [h1, h2, h3, h4, if_true, if_false, Bool.false_eq_true, isRoot_fst,
              isRoot_polynom, Eval_polynom]
            cases hok : F64.lt (F64.abs (evalSum powLib poly.polynom
              ((q1 * p0 - p1 * q0) / (q1 - q0)))) 1 <;> simp
          · simp only [h1, h2, h3, h4, if_false, Bool.false_eq_true]
            have := ih (depth + 1) (Polynom.Eval powLib { poly with iterations := depth }
              ((q1 * p0 - p1 * q0) / (q1 - q0))).2 p1 ((q1 * p0 - p1 * q0) / (q1 - q0)) q1
              (Polynom.Eval powLib { poly with iterations := depth }
                ((q1 * p0 - p1 * q0) / (q1 - q0))).1
            rw [Eval_polynom] at this
            exact this

/-- What `Secant` returns, by the way it ended. -/
theorem secantRun_spec (powLib : F64 → F64 → F64) (poly : Polynom) (p0 p1 precision : F64)
    (max_depth : Int) :
    (secantRun powLib poly p0 p1 precision max_depth).poly.polynom = poly.polynom ∧
    ((secantRun powLib poly p0 p1 precision max_depth).stop = .failed →
      (secantRun powLib poly p0 p1 precision max_depth).err ≠ none ∧
      (secantRun powLib poly p0 p1 precision max_depth).root = 0) ∧
    ((secantRun powLib poly p0 p1 precision max_depth).stop = .exhausted →
      (secantRun powLib poly p0 p1 precision max_depth).err = none ∧
      (secantRun powLib poly p0 p1 precision max_depth).root = 0) ∧
    ((secantRun powLib poly p0 p1 precision max_depth).stop = .converged →
      ((secantRun powLib poly p0 p1 precision max_depth).err = none ↔
        F64.lt (F64.abs (evalSum powLib poly.polynom
          (secantRun powLib poly p0 p1 precision max_depth).root)) 1 = true)) := by
  unfold secantRun
  simp only
  split_ifs with h
  · simp [Eval_polynom]
  · have := secantLoop_spec powLib precision max_depth.toNat 1
      ((poly.Eval powLib p0).2.Eval powLib p1).2 p0 p1 (poly.Eval powLib p0).1
      ((poly.Eval powLib p0).2.Eval powLib p1).1
    rw [Eval_polynom, Eval_polynom] at this
    exact this

theorem brentReeval_ok (powLib : F64 → F64 → F64) (st st2 : BrentState)
    (h : brentReeval powLib st = .ok st2) :
    st2.poly.polynom = st.poly.polynom ∧ st2.poly.iterations = st.poly.iterations := by
  unfold brentReeval at h
  simp only at h
  split_ifs at h <;> cases h <;> simp [Eval_polynom, Eval_iterations]

theorem brentReeval_error (powLib : F64 → F64 → F64) (st : BrentState)
    (r : F64 × Option Err × Polynom) (h : brentReeval powLib st = .error r) :
    r.1 = 0 ∧ r.2.1 ≠ none ∧ r.2.1 ≠ some .brentNotRoot ∧ r.2.1 ≠ some .brentSameSign ∧
      r.2.2.polynom = st.poly.polynom := by
  unfold brentReeval at h
  simp only at h
  split_ifs at h <;> cases h <;> simp [Eval_polynom]

theorem brentStep_ok (powLib : F64 → F64 → F64) (st st2 : BrentState)
    (h : brentStep powLib st = .ok st2) :
    st2.poly.polynom = st.poly.polynom ∧ st2.poly.iterations = st.poly.iterations + 1 := by
  unfold brentStep at h
  simp only at h
  split_ifs at h <;> cases h <;> simp [Eval_polynom, Eval_iterations]

theorem brentStep_error (powLib : F64 → F64 → F64) (st : BrentState)
    (r : F64 × Option Err × Polynom) (h : brentStep powLib st = .error r) :
    r.1 = 0 ∧ r.2.1 ≠ none ∧ r.2.1 ≠ some .brentNotRoot ∧ r.2.1 ≠ some .brentSameSign ∧
      r.2.2.polynom = st.poly.polynom := by
  unfold brentStep at h
  simp only at h
  split_ifs at h <;> cases h <;> simp [Eval_polynom]

/-- What the loop of `Brent` returns: a value with no error passed `isRoot`, and every
error other than the two diagnostics comes with the zero value for `root`. -/
theorem brentLoop_spec (powLib : F64 → F64 → F64) (precision : F64) (max_depth : Int)
    (c : CoefMap) (err : Option Err) (fuel : Nat) :
    ∀ (st : BrentState), st.poly.polynom = c →
      (brentLoop powLib precision max_depth fuel st err).2.2.polynom = c ∧
      ((brentLoop powLib precision max_depth fuel st err).2.1 = none →
        F64.lt (F64.abs (evalSum powLib c
          (brentLoop powLib precision max_depth fuel st err).1)) 1 = true) ∧
      ((brentLoop powLib precision max_depth fuel st err).1 = 0 ∨
        (brentLoop powLib precision max_depth fuel st err).2.1 = some .brentNotRoot ∨
        (brentLoop powLib precision max_depth fuel st err).2.1 = err) := by
  have hfinal : ∀ (st : BrentState), st.poly.polynom = c →
      ((st.b, (if (st.poly.isRoot powLib st.b).1 = true then err else some Err.brentNotRoot),
          (st.poly.isRoot powLib st.b).2) : F64 × Option Err × Polynom).2.2.polynom = c ∧
      (((st.b, (if (st.poly.isRoot powLib st.b).1 = true then err else some Err.brentNotRoot),
          (st.poly.isRoot powLib st.b).2) : F64 × Option Err × Polynom).2.1 = none →
        F64.lt (F64.abs (evalSum powLib c st.b)) 1 = true) ∧
      (st.b = 0 ∨
        (if (st.poly.isRoot powLib st.b).1 = true then err else some Err.brentNotRoot)
          = some .brentNotRoot ∨
        (if (st.poly.isRoot powLib st.b).1 = true then err else some Err.brentNotRoot) = err) := by
    intro st hc
    rw [isRoot_fst, isRoot_polynom, hc]
    cases hok : F64.lt (F64.abs (evalSum powLib c st.b)) 1 <;> simp
  induction fuel with
  | zero =>
    intro st hc
    rw [brentLoop]
    split_ifs with h1 h2
    · simp [hc]
    · simp [hc]
    · exact hfinal st hc
  | succ n ih =>
    intro st hc
    rw [brentLoop]
    split_ifs with h1 h2
    · simp [hc]
    · cases hre : brentReeval powLib st with
      | error r =>
        obtain ⟨e1, e2, -, -, e5⟩ := brentReeval_error powLib st r hre
        simp [e1, e2, e5, hc]
      | ok st2 =>
        have hc2 := (brentReeval_ok powLib st st2 hre).1
        simp only
        cases hst : brentStep powLib st2 with
        | error r =>
          obtain ⟨e1, e2, -, -, e5⟩ := brentStep_error powLib st2 r hst
          simp [e1, e2, e5, hc2, hc]
        | ok st3 =>
          have hc3 := (brentStep_ok powLib st2 st3 hst).1
          exact ih st3 (by rw [hc3, hc2, hc])
    · exact hfinal st hc

/-- What `Brent` returns: a value with no error passed `isRoot` or was an endpoint where the
polynomial is zero; an error other than `brentNotRoot` and `brentSameSign` comes
with the zero value for `root`. -/
theorem Brent_spec (powLib : F64 → F64 → F64) (poly : Polynom) (a b precision : F64)
    (max_depth : Int) :
    ((poly.Brent powLib a b precision max_depth).2.1 = none →
      F64.lt (F64.abs (evalSum powLib poly.polynom
        (poly.Brent powLib a b precision max_depth).1)) 1 = true) ∧
    ((poly.Brent powLib a b precision max_depth).1 = 0 ∨
      (poly.Brent powLib a b precision max_depth).2.1 = some .brentNotRoot ∨
      (poly.Brent powLib a b precision max_depth).2.1 = some .brentSameSign ∨
      (poly.Brent powLib a b precision max_depth).2.1 = none) := by
  have hloop : ∀ (st : BrentState) (err : Option Err), st.poly.polynom = poly.polynom →
      (err = some .brentSameSign ∨ err = none) →
      ((brentLoop powLib precision max_depth (max_depth + 1).toNat st err).2.1 = none →
        F64.lt (F64.abs (evalSum powLib poly.polynom
          (brentLoop powLib precision max_depth (max_depth + 1).toNat st err).1)) 1 = true) ∧
      ((brentLoop powLib precision max_depth (max_depth + 1).toNat st err).1 = 0 ∨
        (brentLoop powLib precision max_depth (max_depth + 1).toNat st err).2.1
          = some .brentNotRoot ∨
        (brentLoop powLib precision max_depth (max_depth + 1).toNat st err).2.1
          = some .brentSameSign ∨
        (brentLoop powLib precision max_depth (max_depth + 1).toNat st err).2.1 = none) := by
    intro st err hc herr
    obtain ⟨-, k2, k3⟩ := brentLoop_spec powLib precision max_depth poly.polynom err
      (max_depth + 1).toNat st hc
    refine ⟨k2, ?_⟩
    rcases k3 with k | k | k
    · exact Or.inl k
    · exact Or.inr (Or.inl k)
    · rw [k]
      rcases herr with h | h
      · exact Or.inr (Or.inr (Or.inl h))
      · exact Or.inr (Or.inr (Or.inr h))
  unfold Polynom.Brent
  simp only
  by_cases h1 : poly.polynom.length = 0
  · simp [h1]
  · by_cases h2 : ((Polynom.Eval powLib { poly with iterations := 0 } a).1.isNaN ||
        (Polynom.Eval powLib (Polynom.Eval powLib { poly with iterations := 0 } a).2 b).1.isNaN)
        = true
    · simp [h1, h2]
    · by_cases h3 : F64.eq (Polynom.Eval powLib { poly with iterations := 0 } a).1 0 = true
      · simp only [h1, h2, h3, if_true, if_false, Bool.false_eq_true]
        rw [Eval_fst] at h3
        exact ⟨fun _ => F64.abs_lt_one_of_eq_zero _ h3, Or.inr (Or.inr (Or.inr trivial))⟩
      · by_cases h4 : F64.eq (Polynom.Eval powLib
            (Polynom.Eval powLib { poly with iterations := 0 } a).2 b).1 0 = true
        · simp only [h1, h2, h3, h4, if_true, if_false, Bool.false_eq_true]
          rw [Eval_fst, Eval_polynom] at h4
          exact ⟨fun _ => F64.abs_lt_one_of_eq_zero _ h4, Or.inr (Or.inr (Or.inr trivial))⟩
        · simp only [h1, h2, h3, h4, if_false, Bool.false_eq_true]
          apply hloop
          · simp [Eval_polynom]
          · split_ifs <;> simp

/-- The bound on the passes of the loop of `Brent` is never what ends it: any two bounds
of at least `max_depth + 1 - poly.iterations` give the same result. -/
theorem brentLoop_fuel (powLib : F64 → F64 → F64) (precision : F64) (max_depth : Int)
    (err : Option Err) (n : Nat) :
    ∀ (m : Nat) (st : BrentState),
      (max_depth + 1 - st.poly.iterations).toNat ≤ n →
      (max_depth + 1 - st.poly.iterations).toNat ≤ m →
      brentLoop powLib precision max_depth n st err =
        brentLoop powLib precision max_depth m st err := by
  induction n with
  | zero =>
    intro m st hn _
    have hit : st.poly.iterations > max_depth := by omega
    cases m
    · rfl
    · conv_lhs => rw [brentLoop]
      conv_rhs => rw [brentLoop]
      simp [hit]
  | succ n ih =>
    intro m st hn hm
    cases m with
    | zero =>
      have hit : st.poly.iterations > max_depth := by omega
      conv_lhs => rw [brentLoop]
      conv_rhs => rw [brentLoop]
      simp [hit]
    | succ m =>
      conv_lhs => rw [brentLoop]
      conv_rhs => rw [brentLoop]
      by_cases hit : st.poly.iterations > max_depth
      · simp [hit]
      · simp only [hit, if_false]
        cases hre : brentReeval powLib st with
        | error r => rfl
        | ok st2 =>
          have h2 := (brentReeval_ok powLib st st2 hre).2
          simp only
          cases hst : brentStep powLib st2 with
          | error r => rfl
          | ok st3 =>
            have h3 := (brentStep_ok powLib st2 st3 hst).2
            simp only
            rw [ih m st3 (by omega) (by omega)]

/-- The bound on the passes of the bracket discovery loop is never what ends it: any two
bounds of at least `maxPosNegPoints + 1 - i` give the same result. -/
theorem bracketLoop_fuel (powLib : F64 → F64 → F64) (n : Nat) :
    ∀ (m : Nat) (i : Int) (poly : Polynom),
      (maxPosNegPoints + 1 - i).toNat ≤ n → (maxPosNegPoints + 1 - i).toNat ≤ m →
      bracketLoop powLib n i poly = bracketLoop powLib m i poly := by
  induction n with
  | zero =>
    intro m i poly hn _
    have hi : ¬ i ≤ maxPosNegPoints := by omega
    cases m
    · rfl
    · conv_rhs => rw [bracketLoop]
      simp [hi, bracketLoop]
  | succ n ih =>
    intro m i poly hn hm
    cases m with
    | zero =>
      have hi : ¬ i ≤ maxPosNegPoints := by omega
      conv_lhs => rw [bracketLoop]
      simp [hi, bracketLoop]
    | succ m =>
      conv_lhs => rw [bracketLoop]
      conv_rhs => rw [bracketLoop]
      by_cases hi : i ≤ maxPosNegPoints
      · split_ifs
        · exact ih m (i + 1) _ (by omega) (by omega)
        · rfl
      · simp [hi]

/-! ### The returns of `Secant` and `Brent` with no error -/

/-- When `Secant` meets its convergence test and returns its value with no error, and
when `Brent` returns with no error, the polynomial at the returned value is
strictly below 1 in absolute value. The one other return of `Secant` with a nil
error is the exhausted loop, whose `root` is the zero value of the result
variable. -/
theorem nil_error_is_verified (powLib : F64 → F64 → F64) (poly : Polynom)
    (p0 p1 a b precision : F64) (max_depth : Int) :
    ((poly.Secant powLib p0 p1 precision max_depth).2.1 = none →
      (secantRun powLib poly p0 p1 precision max_depth).stop ≠ .exhausted →
      F64.lt (F64.abs (evalSum powLib poly.polynom
        (poly.Secant powLib p0 p1 precision max_depth).1)) 1 = true) ∧
    ((secantRun powLib poly p0 p1 precision max_depth).stop = .exhausted →
      (poly.Secant powLib p0 p1 precision max_depth).1 = 0 ∧
      (poly.Secant powLib p0 p1 precision max_depth).2.1 = none) ∧
    ((poly.Brent powLib a b precision max_depth).2.1 = none →
      F64.lt (F64.abs (evalSum powLib poly.polynom
        (poly.Brent powLib a b precision max_depth).1)) 1 = true) := by
  obtain ⟨-, hf, he, hc⟩ := secantRun_spec powLib poly p0 p1 precision max_depth
  refine ⟨?_, ?_, (Brent_spec powLib poly a b precision max_depth).1⟩
  · intro herr hstop
    show F64.lt (F64.abs (evalSum powLib poly.polynom
      (secantRun powLib poly p0 p1 precision max_depth).root)) 1 = true
    have herr2 : (secantRun powLib poly p0 p1 precision max_depth).err = none := herr
    cases hs : (secantRun powLib poly p0 p1 precision max_depth).stop with
    | failed => exact absurd herr2 (hf hs).1
    | exhausted => exact absurd hs hstop
    | converged => exact (hc hs).1 herr2
  · intro hs
    exact ⟨(he hs).2, (he hs).1⟩

/-- On `-1000 + 1100 x`, `Secant` from 0.5 and 1 and `Brent` on `[0, 2]` both return with
no error, and the returned values pass the test. -/
theorem nil_error_is_verified_example :
    F64.lt (F64.abs (evalSum powNone scenarioPoly
      ((NewPolynom scenarioPoly).Secant powNone F64.half 1 precision 100).1)) 1 = true ∧
    F64.lt (F64.abs (evalSum powNone scenarioPoly
      ((NewPolynom scenarioPoly).Brent powNone 0 2 precision 100).1)) 1 = true :=
  ⟨(nil_error_is_verified powNone (NewPolynom scenarioPoly) F64.half 1 0 2 precision
      100).1 (by decide!) (by decide!),
   (nil_error_is_verified powNone (NewPolynom scenarioPoly) F64.half 1 0 2 precision
      100).2.2 (by decide!)⟩

/-! ### The method `xirr`: the test `len(coefficient) >= 2` and the end of the method -/

theorem xirr_eq (powLib : F64 → F64 → F64) (account : Account) :
    account.xirr powLib = (account.xirrRun powLib).map (fun r => (r.irr, r.err)) := rfl

theorem xirrRun_short (powLib : F64 → F64 → F64) (account : Account) (coefficient : CoefMap)
    (hc : account.coefficient = some coefficient) (hlen : coefficient.length < 2) :
    account.xirrRun powLib = some ⟨0, none, []⟩ := by
  unfold Account.xirrRun
  rw [hc]
  simp only
  rw [if_neg (by omega)]

theorem xirrRun_solved (powLib : F64 → F64 → F64) (account : Account) (coefficient : CoefMap)
    (root : F64) (err : Option Err) (phases : List Phase)
    (hc : account.coefficient = some coefficient) (hlen : coefficient.length ≥ 2)
    (hs : solve powLib coefficient = (some (root, err), phases)) :
    account.xirrRun powLib =
      some (if F64.eq root 0 = true then ⟨0, some .infiniteIRR, phases⟩
        else ⟨-1 + 1 / root, err, phases⟩) := by
  unfold Account.xirrRun
  rw [hc]
  simp only
  rw [if_pos hlen, hs]
  simp only
  split_ifs <;> rfl

/-- The phases that `solve` reports: the root in hand comes from `Secant` alone, or from
`Brent` after bracket discovery. -/
theorem solve_phases (powLib : F64 → F64 → F64) (coefficient : CoefMap) (root : F64)
    (err : Option Err) (phases : List Phase)
    (hs : solve powLib coefficient = (some (root, err), phases)) :
    (phases = [.secant] ∧
      (root, err) = (((NewPolynom coefficient).Secant powLib F64.half 1 precision maxDepth).1,
        ((NewPolynom coefficient).Secant powLib F64.half 1 precision maxDepth).2.1) ∧
      err = none) ∨
    (phases = [.secant, .bracket, .brent] ∧
      ((NewPolynom coefficient).Secant powLib F64.half 1 precision maxDepth).2.1 ≠ none) := by
  unfold solve at hs
  simp only at hs
  split_ifs at hs with h1
  · right
    split at hs
    · simp only [Prod.mk.injEq, Option.some.injEq] at hs
      refine ⟨hs.2.symm, ?_⟩
      intro hn
      simp [hn] at h1
    · simp at hs
  · left
    simp only [Prod.mk.injEq, Option.some.injEq] at hs
    obtain ⟨⟨hr, he⟩, hp⟩ := hs
    refine ⟨hp.symm, ?_, ?_⟩
    · rw [← hr, ← he]
    · rw [← he]
      simpa using h1

/-! ### C6: the zero root and the rate -/

/-- C6: for an account with at least two coefficients whose solver phase (the secant phase,
or Brent after the fallback) hands over `(root, err)`: if `root == 0` then `xirr`
returns rate 0 with the error "got root of 0, meaning infinite IRR", and otherwise
it returns the rate `-1 + 1/root` (with the `err` of the solver). -/
theorem C6_zero_root_or_rate (powLib : F64 → F64 → F64) (account : Account)
    (coefficient : CoefMap) (root : F64) (err : Option Err) (phases : List Phase)
    (hc : account.coefficient = some coefficient) (hlen : coefficient.length ≥ 2)
    (hs : solve powLib coefficient = (some (root, err), phases)) :
    (F64.eq root 0 = true → account.xirr powLib = some (0, some .infiniteIRR)) ∧
    (F64.eq root 0 = false → account.xirr powLib = some (-1 + 1 / root, err)) ∧
    (phases = [.secant] ∨ phases = [.secant, .bracket, .brent]) := by
  have h := xirrRun_solved powLib account coefficient root err phases hc hlen hs
  refine ⟨?_, ?_, ?_⟩
  · intro h0
    rw [xirr_eq, h, if_pos h0]
    rfl
  · intro h0
    rw [xirr_eq, h, if_neg (by simp [h0])]
    rfl
  · rcases solve_phases powLib coefficient root err phases hs with h1 | h1
    · exact Or.inl h1.1
    · exact Or.inr h1.1

/-- C6 (witness): Scenario A, where the secant phase hands over the root `10/11`. -/
theorem C6_zero_root_or_rate_witness :
    (F64.eq tenElevenths 0 = false →
      scenarioA.xirr powNone = some (-1 + 1 / tenElevenths, none)) ∧
    F64.eq tenElevenths 0 = false :=
  ⟨(C6_zero_root_or_rate powNone scenarioA scenarioPoly tenElevenths none [.secant]
      (by decide!) (by decide!) (by decide!)).2.1, by decide!⟩

/-! ### The float `==` as a partial equivalence, and the map operations -/

theorem F64.eq_symm (x y : F64) : F64.eq x y = F64.eq y x := by
  cases x <;> cases y <;> simp only [F64.eq]
  · exact Bool.beq_comm
  · exact decide_eq_decide.2 eq_comm

theorem F64.eq_trans (x y z : F64) (h1 : F64.eq x y = true) (h2 : F64.eq y z = true) :
    F64.eq x z = true := by
  cases x <;> cases y <;> cases z <;> simp_all [F64.eq]

theorem F64.eq_self (x : F64) (h : x.isNaN = false) : F64.eq x x = true := by
  cases x <;> simp_all [F64.eq, F64.isNaN]

theorem F64.eq_congr_right (x y z : F64) (h : F64.eq x y = true) : F64.eq z x = F64.eq z y := by
  cases hzx : F64.eq z x <;> cases hzy : F64.eq z y <;> try rfl
  · have := F64.eq_trans z y x hzy (by rw [F64.eq_symm]; exact h)
    rw [this] at hzx; exact absurd hzx (by simp)
  · have := F64.eq_trans z x y hzx h
    rw [this] at hzy; exact absurd hzy (by simp)

theorem F64.eq_congr_left (x y z : F64) (h : F64.eq x y = true) : F64.eq x z = F64.eq y z := by
  rw [F64.eq_symm x z, F64.eq_symm y z]
  exact F64.eq_congr_right x y z h

theorem F64.add_def (x y : F64) : x + y = F64.add x y := rfl

theorem F64.div_def (x y : F64) : x / y = F64.div x y := rfl

theorem F64.eq_zero_add (a b : F64) (ha : F64.eq a 0 = true) (hb : F64.eq b 0 = true) :
    F64.eq (a + b) 0 = true := by
  rw [F64.zero_def] at ha hb ⊢
  rw [F64.add_def]
  cases a with
  | nan => simp [F64.eq] at ha
  | inf s => simp [F64.eq] at ha
  | fin s m e =>
    cases b with
    | nan => simp [F64.eq] at hb
    | inf s => simp [F64.eq] at hb
    | fin t n f =>
      simp only [F64.eq, decide_eq_true_eq] at ha hb
      have h0 : F64.units false 0 (-1074) = 0 := by decide
      rw [h0] at ha hb
      simp only [F64.add, ha, hb, add_zero, if_true]
      cases s <;> cases t <;> decide

theorem mapGet_eq_find (m : CoefMap) (k : F64) : mapGet m k = (mapFind m k).getD 0 := by
  induction m with
  | nil => rfl
  | cons kv rest ih =>
    obtain ⟨k1, v1⟩ := kv
    simp only [mapGet, mapFind]
    split_ifs
    · rfl
    · exact ih

theorem mapFind_mapSet (m : CoefMap) (kx v k : F64) :
    mapFind (mapSet m kx v) k = if F64.eq kx k = true then some v else mapFind m k := by
  induction m with
  | nil => simp [mapSet, mapFind]
  | cons kv rest ih =>
    obtain ⟨k1, v1⟩ := kv
    simp only [mapSet]
    by_cases h1 : F64.eq k1 kx = true
    · simp only [h1, if_true, mapFind]
      by_cases h2 : F64.eq kx k = true
      · simp [h2]
      · have h3 : F64.eq k1 k = false := by
          rw [F64.eq_congr_left k1 kx k h1]
          simpa using h2
        simp [h2, h3]
    · simp only [h1, if_false, Bool.false_eq_true, mapFind, ih]
      by_cases h2 : F64.eq kx k = true
      · have h3 : F64.eq k1 k = false := by
          have := F64.eq_congr_right kx k k1 h2
          rw [← this]
          simpa using h1
        simp [h2, h3]
      · simp [h2]

theorem mem_mapSet (m : CoefMap) (kx v : F64) (kv : F64 × F64) (h : kv ∈ mapSet m kx v) :
    kv ∈ m ∨ kv = (kx, v) := by
  induction m with
  | nil => simpa [mapSet] using h
  | cons hd rest ih =>
    obtain ⟨k1, v1⟩ := hd
    simp only [mapSet] at h
    split_ifs at h with h1
    · rcases List.mem_cons.1 h with h | h
      · exact Or.inr h
      · exact Or.inl (List.mem_cons_of_mem _ h)
    · rcases List.mem_cons.1 h with h | h
      · exact Or.inl (by rw [h]; exact List.mem_cons_self _ _)
      · rcases ih h with h | h
        · exact Or.inl (List.mem_cons_of_mem _ h)
        · exact Or.inr h

/-- Keys pairwise different under `==`: the invariant of a Go map. -/
theorem mapSet_pairwise (m : CoefMap) (kx v : F64)
    (h : m.Pairwise (fun a b => F64.eq a.1 b.1 = false)) :
    (mapSet m kx v).Pairwise (fun a b => F64.eq a.1 b.1 = false) := by
  induction m with
  | nil => simp [mapSet]
  | cons hd rest ih =>
    obtain ⟨k1, v1⟩ := hd
    rw [List.pairwise_cons] at h
    obtain ⟨hhd, htl⟩ := h
    simp only [mapSet]
    split_ifs with h1
    · rw [List.pairwise_cons]
      refine ⟨?_, htl⟩
      intro kv hkv
      have := hhd kv hkv
      simp only at this ⊢
      rw [← F64.eq_congr_left k1 kx kv.1 h1]
      exact this
    · rw [List.pairwise_cons]
      refine ⟨?_, ih htl⟩
      intro kv hkv
      rcases mem_mapSet rest kx v kv hkv with h | h
      · exact hhd kv h
      · rw [h]
        simpa using h1

theorem mapFind_none_of_no_key (m : CoefMap) (k : F64)
    (h : ∀ kv ∈ m, F64.eq kv.1 k = false) : mapFind m k = none := by
  induction m with
  | nil => rfl
  | cons hd rest ih =>
    obtain ⟨k1, v1⟩ := hd
    have h1 : F64.eq k1 k = false := h (k1, v1) (List.mem_cons_self _ _)
    simp only [mapFind, h1, Bool.false_eq_true, if_false]
    exact ih (fun kv hkv => h kv (List.mem_cons_of_mem _ hkv))

theorem mapFind_mem (m : CoefMap) (k v : F64) (h : mapFind m k = some v) :
    ∃ k1, (k1, v) ∈ m ∧ F64.eq k1 k = true := by
  induction m with
  | nil => simp [mapFind] at h
  | cons hd rest ih =>
    obtain ⟨k1, v1⟩ := hd
    simp only [mapFind] at h
    split_ifs at h with h1
    · simp only [Option.some.injEq] at h
      exact ⟨k1, by rw [← h]; exact List.mem_cons_self _ _, h1⟩
    · obtain ⟨k2, hm, he⟩ := ih h
      exact ⟨k2, List.mem_cons_of_mem _ hm, he⟩

theorem mapFind_pruneZero (m : CoefMap) (k : F64)
    (h : m.Pairwise (fun a b => F64.eq a.1 b.1 = false)) :
    mapFind (pruneZero m) k = (mapFind m k).filter (fun v => !(F64.eq v 0)) := by
  induction m with
  | nil => rfl
  | cons hd rest ih =>
    obtain ⟨k1, v1⟩ := hd
    rw [List.pairwise_cons] at h
    obtain ⟨hhd, htl⟩ := h
    have ih2 := ih htl
    unfold pruneZero at ih2 ⊢
    by_cases h1 : F64.eq k1 k = true
    · have hno : mapFind (List.filter (fun kv => !(F64.eq kv.2 0)) rest) k = none := by
        apply mapFind_none_of_no_key
        intro kv hkv
        have := hhd kv (List.mem_of_mem_filter hkv)
        simp only at this
        rw [← F64.eq_congr_right k1 k kv.1 h1, F64.eq_symm]
        exact this
      by_cases hv : F64.eq v1 0 = true
      · simp [List.filter, hv, mapFind, h1, hno, Option.filter]
      · simp [List.filter, hv, mapFind, h1, Option.filter]
    · by_cases hv : F64.eq v1 0 = true
      · simp [List.filter, hv, mapFind, h1, ih2]
      · simp [List.filter, hv, mapFind, h1, ih2]

/-! ### The exponent of an entry is never NaN -/

theorem F64.ilog2_fold (n : Nat) (steps : List Nat) :
    ∀ k, 2 ^ k ≤ n →
      2 ^ (steps.foldl (fun k s => if 2 ^ (k + s) ≤ n then k + s else k) k) ≤ n := by
  induction steps with
  | nil => intro k hk; exact hk
  | cons s rest ih =>
    intro k hk
    simp only [List.foldl]
    split_ifs with h
    · exact ih _ h
    · exact ih _ hk

theorem F64.ilog2_le (n : Nat) (h : n ≠ 0) : 2 ^ F64.ilog2 n ≤ n :=
  F64.ilog2_fold n _ 0 (by simpa using Nat.pos_of_ne_zero h)

theorem F64.ilog2_lt (n b : Nat) (h : n < 2 ^ b) : F64.ilog2 n < b ∨ n = 0 := by
  by_cases h0 : n = 0
  · exact Or.inr h0
  · left
    have h1 := F64.ilog2_le n h0
    exact (Nat.pow_lt_pow_iff_right (by norm_num : 1 < 2)).1 (lt_of_le_of_lt h1 h)

theorem F64.round_not_nan (neg : Bool) (m : Nat) (e : Int) (sticky : Bool) :
    (F64.round neg m e sticky).isNaN = false := by
  unfold F64.round
  simp only
  split_ifs <;> rfl

theorem F64.ofInt_fin (i : Int) (h : i.natAbs < 2 ^ 64) : ∃ s m e, F64.ofInt i = F64.fin s m e := by
  unfold F64.ofInt F64.round
  simp only
  rcases F64.ilog2_lt _ _ h with hl | hl
  · split_ifs with h1 h2 h3 h4 h5 h6 h7
    all_goals first
      | exact ⟨_, _, _, rfl⟩
      | (exfalso; omega)
  · simp [hl]

theorem F64.div_not_nan (x : F64) (t : Bool) (n : Nat) (f : Int) (hx : x.isNaN = false)
    (hn : n ≠ 0) : (x / F64.fin t n f).isNaN = false := by
  rw [F64.div_def]
  cases x with
  | nan => simp [F64.isNaN] at hx
  | inf s => rfl
  | fin s m e =>
    simp only [F64.div, hn, if_false]
    split_ifs
    · rfl
    · exact F64.round_not_nan _ _ _ _

theorem F64.fin_add_not_nan (s : Bool) (m : Nat) (e : Int) (y : F64) (hy : y.isNaN = false) :
    (F64.fin s m e + y).isNaN = false := by
  rw [F64.add_def]
  cases y with
  | nan => simp [F64.isNaN] at hy
  | inf t => rfl
  | fin t n f =>
    simp only [F64.add]
    split_ifs
    · rfl
    · exact F64.round_not_nan _ _ _ _

theorem Time.Sub_bounds (t u : Time) : minDuration ≤ t.Sub u ∧ t.Sub u ≤ maxDuration := by
  have hmm : minDuration ≤ maxDuration := by decide
  unfold Time.Sub
  split_ifs with h1 h2
  · exact ⟨le_refl _, hmm⟩
  · exact ⟨hmm, le_refl _⟩
  · exact ⟨not_lt.1 h1, not_lt.1 h2⟩

theorem Hours_not_nan (d : Int) (h1 : minDuration ≤ d) (h2 : d ≤ maxDuration) :
    (Duration.Hours d).isNaN = false := by
  unfold Duration.Hours
  have hq : (Int.tdiv d Hour).natAbs < 2 ^ 64 := by
    rw [Int.natAbs_tdiv]
    have h3 : (-9223372036854775808 : Int) ≤ d := h1
    have h4 : d ≤ (9223372036854775807 : Int) := h2
    calc d.natAbs.div Hour.natAbs ≤ d.natAbs := Nat.div_le_self _ _
      _ < 18446744073709551616 := by omega
  obtain ⟨s, m, e, hfin⟩ := F64.ofInt_fin _ hq
  rw [hfin]
  apply F64.fin_add_not_nan
  have hc : F64.ofInt 3600000000000 = F64.fin false 7372800000000000 (-11) := by decide!
  rw [hc]
  apply F64.div_not_nan
  · exact F64.round_not_nan _ _ _ _
  · norm_num

theorem exponent_not_nan (startDt : Time) (entry : Entry) :
    (exponent startDt entry).isNaN = false := by
  unfold exponent
  have h24 : (24 : F64) = F64.fin false 6755399441055744 (-48) := by decide!
  have h365 : (365 : F64) = F64.fin false 6421147906211840 (-44) := by decide!
  rw [h24, h365]
  apply F64.div_not_nan _ _ _ _ _ (by norm_num)
  apply F64.div_not_nan _ _ _ _ _ (by norm_num)
  exact Hours_not_nan _ (Time.Sub_bounds _ _).1 (Time.Sub_bounds _ _).2

theorem exponent_eq_self (startDt : Time) (entry : Entry) :
    F64.eq (exponent startDt entry) (exponent startDt entry) = true :=
  F64.eq_self _ (exponent_not_nan startDt entry)

/-! ### The accumulation loop of `xirr` -/

theorem exponentSum_append (startDt : Time) (xs : List Entry) (x : Entry) (k : F64) :
    exponentSum startDt (xs ++ [x]) k =
      if F64.eq (exponent startDt x) k = true then exponentSum startDt xs k + x.Amount
      else exponentSum startDt xs k := by
  unfold exponentSum
  rw [List.filter_append]
  by_cases h : F64.eq (exponent startDt x) k = true
  · simp [List.filter, h, List.foldl_append]
  · simp [List.filter, h]

theorem exponentSum_congr (startDt : Time) (xs : List Entry) (k1 k2 : F64)
    (h : F64.eq k1 k2 = true) : exponentSum startDt xs k1 = exponentSum startDt xs k2 := by
  unfold exponentSum
  have : (fun x => F64.eq (exponent startDt x) k1) = (fun x => F64.eq (exponent startDt x) k2) := by
    funext x
    exact F64.eq_congr_right k1 k2 _ h
  rw [this]

theorem exponentSum_of_no_entry (startDt : Time) (xs : List Entry) (k : F64)
    (h : xs.any (fun x => F64.eq (exponent startDt x) k) = false) :
    exponentSum startDt xs k = 0 := by
  unfold exponentSum
  have : xs.filter (fun x => F64.eq (exponent startDt x) k) = [] := by
    rw [List.filter_eq_nil_iff]
    intro a ha
    rw [List.any_eq_false] at h
    exact h a ha
  rw [this]
  rfl

/-- The map after the accumulation loop: its keys are pairwise different, each comes from
an entry, and the value found under `k` is the sum of the amounts of the entries
whose exponent equals `k`. -/
theorem accumulate_spec (startDt : Time) (arr : List Entry) :
    (arr.foldl (addCoefficient startDt) []).Pairwise (fun a b => F64.eq a.1 b.1 = false) ∧
    (∀ kv ∈ arr.foldl (addCoefficient startDt) [], ∃ x ∈ arr, kv.1 = exponent startDt x) ∧
    (∀ k, mapFind (arr.foldl (addCoefficient startDt) []) k =
      if arr.any (fun x => F64.eq (exponent startDt x) k) = true
      then some (exponentSum startDt arr k) else none) := by
  induction arr using List.reverseRecOn with
  | nil => simp [mapFind]
  | append_singleton xs x ih =>
    obtain ⟨ih1, ih2, ih3⟩ := ih
    rw [List.foldl_append]
    simp only [List.foldl, addCoefficient]
    refine ⟨mapSet_pairwise _ _ _ ih1, ?_, ?_⟩
    · intro kv hkv
      rcases mem_mapSet _ _ _ _ hkv with h | h
      · obtain ⟨y, hy, hk⟩ := ih2 kv h
        exact ⟨y, List.mem_append_left _ hy, hk⟩
      · exact ⟨x, by simp, by rw [h]⟩
    · intro k
      rw [mapFind_mapSet, exponentSum_append, List.any_append]
      by_cases h : F64.eq (exponent startDt x) k = true
      · simp only [h, if_true, List.any_cons, List.any_nil, Bool.or_false, Bool.or_true]
        congr 2
        rw [mapGet_eq_find, ih3, ← exponentSum_congr startDt xs _ _ h]
        by_cases ha : xs.any (fun y => F64.eq (exponent startDt y) (exponent startDt x)) = true
        · simp [ha]
        · simp only [ha, if_false, Bool.false_eq_true, Option.getD_none]
          rw [exponentSum_of_no_entry startDt xs _ (by simpa using ha)]
      · simp only [h, if_false, Bool.false_eq_true, List.any_cons, List.any_nil, Bool.or_false]
        exact ih3 k

/-- An account with a closing entry has a start date, entries and a coefficient map. -/
theorem coefficient_eq (account : Account) (cl : Entry) (hcl : account.Closing = some cl) :
    ∃ startDt arr, account.startDt = some startDt ∧ account.Entries = some arr ∧
      account.coefficient = some (pruneZero (arr.foldl (addCoefficient startDt) [])) := by
  have harr := Entries_eq account cl hcl
  have hst : ∃ startDt, account.startDt = some startDt := by
    unfold Account.startDt
    cases account.Opening with
    | some o => exact ⟨_, rfl⟩
    | none =>
      cases account.Cashflow with
      | cons c _ => exact ⟨_, rfl⟩
      | nil => exact ⟨cl.Time, by simp [hcl]⟩
  obtain ⟨startDt, hst⟩ := hst
  refine ⟨startDt, _, hst, harr, ?_⟩
  unfold Account.coefficient
  rw [hst, harr]

/-! ### C9: the coefficient map -/

/-- C9: for an account with a closing entry, the map `coefficient` that `xirr` builds holds,
for the exponent of each entry of `Entries()`, the sum of the amounts of the
entries with that exponent when the sum is not zero, and no key equal to that
exponent when the sum is zero; no stored value is zero, every key is the
exponent of an entry, and the keys are pairwise different. -/
theorem C9_coefficient_map (account : Account) (cl : Entry) (hcl : account.Closing = some cl) :
    ∃ startDt arr coefficient,
      account.startDt = some startDt ∧ account.Entries = some arr ∧
      account.coefficient = some coefficient ∧
      (∀ x ∈ arr, mapFind coefficient (exponent startDt x) =
        if F64.eq (exponentSum startDt arr (exponent startDt x)) 0 = true then none
        else some (exponentSum startDt arr (exponent startDt x))) ∧
      (∀ kv ∈ coefficient, F64.eq kv.2 0 = false ∧ ∃ x ∈ arr, kv.1 = exponent startDt x) ∧
      coefficient.Pairwise (fun a b => F64.eq a.1 b.1 = false) := by
  obtain ⟨startDt, arr, hst, harr, hco⟩ := coefficient_eq account cl hcl
  obtain ⟨h1, h2, h3⟩ := accumulate_spec startDt arr
  refine ⟨startDt, arr, _, hst, harr, hco, ?_, ?_, ?_⟩
  · intro x hx
    rw [mapFind_pruneZero _ _ h1, h3]
    have hany : arr.any (fun y => F64.eq (exponent startDt y) (exponent startDt x)) = true := by
      rw [List.any_eq_true]
      exact ⟨x, hx, exponent_eq_self startDt x⟩
    rw [if_pos hany]
    by_cases hz : F64.eq (exponentSum startDt arr (exponent startDt x)) 0 = true
    · simp [Option.filter, hz]
    · simp [Option.filter, hz]
  · intro kv hkv
    unfold pruneZero at hkv
    rw [List.mem_filter] at hkv
    exact ⟨by simpa using hkv.2, h2 kv hkv.1⟩
  · unfold pruneZero
    exact List.Pairwise.sublist (List.filter_sublist _) h1

/-- C9 (witness): the account with two deposits on the first day and a deposit reversed on
day 100 gets the map `{0: -1500, 1: 1700}`; the exponent of day 100 has no key. -/
theorem C9_coefficient_map_witness :
    (∃ startDt arr coefficient,
      mixedAccount.startDt = some startDt ∧ mixedAccount.Entries = some arr ∧
      mixedAccount.coefficient = some coefficient ∧
      (∀ x ∈ arr, mapFind coefficient (exponent startDt x) =
        if F64.eq (exponentSum startDt arr (exponent startDt x)) 0 = true then none
        else some (exponentSum startDt arr (exponent startDt x))) ∧
      (∀ kv ∈ coefficient, F64.eq kv.2 0 = false ∧ ∃ x ∈ arr, kv.1 = exponent startDt x) ∧
      coefficient.Pairwise (fun a b => F64.eq a.1 b.1 = false)) ∧
    mixedAccount.coefficient = some [(0, F64.ofInt (-1500)), (1, 1700)] :=
  ⟨C9_coefficient_map mixedAccount ⟨⟨365 * DAY⟩, 1700, "Closing Balance"⟩ rfl, by decide!⟩

/-! ### C2: fewer than two coefficients -/

theorem mapSet_length (m : CoefMap) (k v : F64) : (mapSet m k v).length ≤ m.length + 1 := by
  induction m with
  | nil => simp [mapSet]
  | cons hd rest ih =>
    obtain ⟨k1, v1⟩ := hd
    simp only [mapSet]
    split_ifs
    · simp
    · simpa using ih

theorem accumulate_length (startDt : Time) (arr : List Entry) :
    (arr.foldl (addCoefficient startDt) []).length ≤ arr.length := by
  induction arr using List.reverseRecOn with
  | nil => simp
  | append_singleton xs x ih =>
    rw [List.foldl_append]
    simp only [List.foldl, addCoefficient, List.length_append, List.length_singleton]
    exact le_trans (mapSet_length _ _ _) (by omega)

theorem mapGet_zero_of_values (m : CoefMap) (k : F64)
    (h : ∀ kv ∈ m, F64.eq kv.2 0 = true) : F64.eq (mapGet m k) 0 = true := by
  rw [mapGet_eq_find]
  cases hf : mapFind m k with
  | none => decide!
  | some v =>
    obtain ⟨k1, hm, -⟩ := mapFind_mem m k v hf
    exact h (k1, v) hm

theorem accumulate_zero (startDt : Time) (arr : List Entry)
    (h : ∀ x ∈ arr, F64.eq x.Amount 0 = true) :
    ∀ kv ∈ arr.foldl (addCoefficient startDt) [], F64.eq kv.2 0 = true := by
  induction arr using List.reverseRecOn with
  | nil => simp
  | append_singleton xs x ih =>
    have ih2 := ih (fun y hy => h y (List.mem_append_left _ hy))
    rw [List.foldl_append]
    simp only [List.foldl, addCoefficient]
    intro kv hkv
    rcases mem_mapSet _ _ _ _ hkv with hk | hk
    · exact ih2 kv hk
    · rw [hk]
      exact F64.eq_zero_add _ _ (mapGet_zero_of_values _ _ ih2) (h x (by simp))

/-- C2: when the map `coefficient` is left with fewer than two keys, `xirr` returns rate 0
and no error and runs no solver phase; an account with only a closing entry and
an account whose amounts are all zero are such accounts. -/
theorem C2_fewer_than_two_buckets (powLib : F64 → F64 → F64) (account : Account) :
    (∀ coefficient, account.coefficient = some coefficient → coefficient.length < 2 →
      account.xirr powLib = some (0, none) ∧
      account.xirrRun powLib = some ⟨0, none, []⟩) ∧
    (∀ cl, account.Closing = some cl → account.Opening = none → account.Cashflow = [] →
      ∃ coefficient, account.coefficient = some coefficient ∧ coefficient.length < 2) ∧
    (∀ cl, account.Closing = some cl → allAmountsZero account →
      account.coefficient = some []) := by
  refine ⟨?_, ?_, ?_⟩
  · intro coefficient hc hlen
    have h := xirrRun_short powLib account coefficient hc hlen
    exact ⟨by rw [xirr_eq, h]; rfl, h⟩
  · intro cl hcl hop hcf
    obtain ⟨startDt, arr, -, harr, hco⟩ := coefficient_eq account cl hcl
    refine ⟨_, hco, ?_⟩
    rw [Entries_eq account cl hcl, hop, hcf] at harr
    have harr2 := Option.some.inj harr
    have hlen : arr.length = 1 := by
      rw [← harr2, (sortSort_perm _).length_eq]
      simp
    have h1 := accumulate_length startDt arr
    have h2 : (pruneZero (arr.foldl (addCoefficient startDt) [])).length ≤
        (arr.foldl (addCoefficient startDt) []).length := List.length_filter_le _ _
    omega
  · intro cl hcl hzero
    obtain ⟨startDt, arr, -, harr, hco⟩ := coefficient_eq account cl hcl
    rw [hco]
    congr 1
    obtain ⟨hz1, hz2, hz3⟩ := hzero
    have hall : ∀ x ∈ arr, F64.eq x.Amount 0 = true := by
      intro x hx
      rcases (Entries_members account cl arr hcl harr).2 x hx with h | h | h
      · rw [h]; exact hz3 cl hcl
      · exact hz1 x h
      · exact hz2 x h.1
    unfold pruneZero
    rw [List.filter_eq_nil_iff]
    intro kv hkv
    simp [accumulate_zero startDt arr hall kv hkv]

/-- C2 (witness): the account with a closing balance only, and the account whose amounts
are all zero. -/
theorem C2_fewer_than_two_buckets_witness :
    (closingOnly.xirr powNone = some (0, none) ∧
      closingOnly.xirrRun powNone = some ⟨0, none, []⟩) ∧
    (∃ coefficient, closingOnly.coefficient = some coefficient ∧ coefficient.length < 2) ∧
    zeroAccount.coefficient = some [] :=
  ⟨(C2_fewer_than_two_buckets powNone closingOnly).1 [(0, 1100)] (by decide!) (by decide!),
   (C2_fewer_than_two_buckets powNone closingOnly).2.1 ⟨⟨365 * DAY⟩, 1100, "Closing Balance"⟩
     rfl rfl rfl,
   (C2_fewer_than_two_buckets powNone zeroAccount).2.2 ⟨⟨365 * DAY⟩, 0, "Closing Balance"⟩ rfl
     ⟨fun o h => by cases h; decide!,
      fun c h => by
        rw [show zeroAccount.Cashflow = [⟨⟨100 * DAY⟩, 0, "Nothing"⟩] from rfl,
          List.mem_singleton] at h
        rw [h]; decide!,
      fun cl h => by cases h; decide!⟩⟩

/-! ### The library routine matters only through the values of the polynomial

Two choices of the library routine `powLib` that give the same polynomial values on
the coefficient map give the same run of every solver and of `xirr`. -/

theorem Eval_congr (p1 p2 : F64 → F64 → F64) (c : CoefMap)
    (h : ∀ x, evalSum p1 c x = evalSum p2 c x) (poly : Polynom) (hc : poly.polynom = c)
    (x : F64) : poly.Eval p1 x = poly.Eval p2 x := by
  unfold Polynom.Eval
  rw [hc, h x]

theorem isRoot_congr (p1 p2 : F64 → F64 → F64) (c : CoefMap)
    (h : ∀ x, evalSum p1 c x = evalSum p2 c x) (poly : Polynom) (hc : poly.polynom = c)
    (x : F64) : poly.isRoot p1 x = poly.isRoot p2 x := by
  unfold Polynom.isRoot
  rw [Eval_congr p1 p2 c h poly hc x]

theorem secantLoop_congr (p1 p2 : F64 → F64 → F64) (c : CoefMap)
    (h : ∀ x, evalSum p1 c x = evalSum p2 c x) (precision : F64) (n : Nat) :
    ∀ (depth : Int) (poly : Polynom), poly.polynom = c → ∀ (a b qa qb : F64),
      secantLoop p1 precision n depth poly a b qa qb =
        secantLoop p2 precision n depth poly a b qa qb := by
  induction n with
  | zero => intro depth poly _ a b qa qb; rfl
  | succ n ih =>
    intro depth poly hc a b qa qb
    rw [secantLoop, secantLoop]
    have hc1 : ({ poly with iterations := depth } : Polynom).polynom = c := hc
    have hc2 : (Polynom.Eval p2 { poly with iterations := depth }
        ((qb * a - b * qa) / (qb - qa))).2.polynom = c := by rw [Eval_polynom]; exact hc
    simp only
    rw [Eval_congr p1 p2 c h _ hc1, isRoot_congr p1 p2 c h _ hc2, ih (depth + 1) _ hc2]

theorem secantRun_congr (p1 p2 : F64 → F64 → F64) (c : CoefMap)
    (h : ∀ x, evalSum p1 c x = evalSum p2 c x) (poly : Polynom) (hc : poly.polynom = c)
    (a b precision : F64) (max_depth : Int) :
    secantRun p1 poly a b precision max_depth = secantRun p2 poly a b precision max_depth := by
  unfold secantRun
  have hc2 : (Polynom.Eval p2 poly a).2.polynom = c := by rw [Eval_polynom]; exact hc
  have hc3 : (Polynom.Eval p2 (Polynom.Eval p2 poly a).2 b).2.polynom = c := by
    rw [Eval_polynom]; exact hc2
  simp only
  rw [Eval_congr p1 p2 c h poly hc, Eval_congr p1 p2 c h _ hc2,
    secantLoop_congr p1 p2 c h precision _ 1 _ hc3]

theorem brentReeval_congr (p1 p2 : F64 → F64 → F64) (c : CoefMap)
    (h : ∀ x, evalSum p1 c x = evalSum p2 c x) (st : BrentState) (hc : st.poly.polynom = c) :
    brentReeval p1 st = brentReeval p2 st := by
  unfold brentReeval
  have hc2 : (Polynom.Eval p2 st.poly st.a).2.polynom = c := by rw [Eval_polynom]; exact hc
  have hc3 : (Polynom.Eval p2 (Polynom.Eval p2 st.poly st.a).2 st.b).2.polynom = c := by
    rw [Eval_polynom]; exact hc2
  simp only
  rw [Eval_congr p1 p2 c h st.poly hc, Eval_congr p1 p2 c h _ hc2, Eval_congr p1 p2 c h _ hc3]

theorem brentStep_congr (p1 p2 : F64 → F64 → F64) (c : CoefMap)
    (h : ∀ x, evalSum p1 c x = evalSum p2 c x) (st : BrentState) (hc : st.poly.polynom = c) :
    brentStep p1 st = brentStep p2 st := by
  unfold brentStep
  simp only
  rw [Eval_congr p1 p2 c h st.poly hc]

theorem brentLoop_congr (p1 p2 : F64 → F64 → F64) (c : CoefMap)
    (h : ∀ x, evalSum p1 c x = evalSum p2 c x) (precision : F64) (max_depth : Int)
    (err : Option Err) (n : Nat) :
    ∀ (st : BrentState), st.poly.polynom = c →
      brentLoop p1 precision max_depth n st err = brentLoop p2 precision max_depth n st err := by
  induction n with
  | zero =>
    intro st hc
    rw [brentLoop, brentLoop]
    simp only
    rw [isRoot_congr p1 p2 c h st.poly hc]
  | succ n ih =>
    intro st hc
    rw [brentLoop, brentLoop]
    simp only
    rw [isRoot_congr p1 p2 c h st.poly hc, brentReeval_congr p1 p2 c h st hc]
    cases hre : brentReeval p2 st with
    | error r => rfl
    | ok st2 =>
      have hc2 : st2.poly.polynom = c := by rw [(brentReeval_ok p2 st st2 hre).1]; exact hc
      simp only
      rw [brentStep_congr p1 p2 c h st2 hc2]
      cases hst : brentStep p2 st2 with
      | error r => rfl
      | ok st3 =>
        have hc3 : st3.poly.polynom = c := by rw [(brentStep_ok p2 st2 st3 hst).1]; exact hc2
        simp only
        rw [ih st3 hc3]

theorem Brent_congr (p1 p2 : F64 → F64 → F64) (c : CoefMap)
    (h : ∀ x, evalSum p1 c x = evalSum p2 c x) (poly : Polynom) (hc : poly.polynom = c)
    (a b precision : F64) (max_depth : Int) :
    poly.Brent p1 a b precision max_depth = poly.Brent p2 a b precision max_depth := by
  unfold Polynom.Brent
  have hc1 : ({ poly with iterations := 0 } : Polynom).polynom = c := hc
  have hc2 : (Polynom.Eval p2 { poly with iterations := 0 } a).2.polynom = c := by
    rw [Eval_polynom]; exact hc
  have hc3 : (Polynom.Eval p2 (Polynom.Eval p2 { poly with iterations := 0 } a).2 b).2.polynom
      = c := by rw [Eval_polynom]; exact hc2
  simp only
  rw [Eval_congr p1 p2 c h _ hc1, Eval_congr p1 p2 c h _ hc2]
  split_ifs <;> first | rfl | exact brentLoop_congr p1 p2 c h precision max_depth _ _ _ hc3

theorem bracketLoop_polynom (powLib : F64 → F64 → F64) (n : Nat) :
    ∀ (i : Int) (poly : Polynom), (bracketLoop powLib n i poly).polynom = poly.polynom := by
  induction n with
  | zero => intro i poly; rfl
  | succ n ih =>
    intro i poly
    rw [bracketLoop]
    split_ifs
    · rw [ih, Eval_polynom, Eval_polynom]
    · rfl

theorem bracketLoop_congr (p1 p2 : F64 → F64 → F64) (c : CoefMap)
    (h : ∀ x, evalSum p1 c x = evalSum p2 c x) (n : Nat) :
    ∀ (i : Int) (poly : Polynom), poly.polynom = c →
      bracketLoop p1 n i poly = bracketLoop p2 n i poly := by
  induction n with
  | zero => intro i poly _; rfl
  | succ n ih =>
    intro i poly hc
    have hc2 : (Polynom.Eval p2 poly (F64.ofInt i)).2.polynom = c := by
      rw [Eval_polynom]; exact hc
    have hc3 : (Polynom.Eval p2 (Polynom.Eval p2 poly (F64.ofInt i)).2
        (-1 + 10 / (F64.ofInt i + 9))).2.polynom = c := by rw [Eval_polynom]; exact hc2
    rw [bracketLoop, bracketLoop]
    simp only
    rw [Eval_congr p1 p2 c h poly hc, Eval_congr p1 p2 c h _ hc2, ih (i + 1) _ hc3]

theorem solve_congr (p1 p2 : F64 → F64 → F64) (c : CoefMap)
    (h : ∀ x, evalSum p1 c x = evalSum p2 c x) : solve p1 c = solve p2 c := by
  unfold solve Polynom.Secant
  have hc0 : (NewPolynom c).polynom = c := rfl
  simp only
  rw [secantRun_congr p1 p2 c h _ hc0]
  have hc1 : (secantRun p2 (NewPolynom c) F64.half 1 precision maxDepth).poly.polynom = c :=
    (secantRun_spec p2 (NewPolynom c) F64.half 1 precision maxDepth).1
  rw [bracketLoop_congr p1 p2 c h _ 1 _ hc1]
  have hc2 : (bracketLoop p2 maxPosNegPoints.toNat 1
      (secantRun p2 (NewPolynom c) F64.half 1 precision maxDepth).poly).polynom = c := by
    rw [bracketLoop_polynom]; exact hc1
  split_ifs
  · split
    · rw [Brent_congr p1 p2 c h _ hc2]
    · rfl
  · rfl

/-- The run of `xirr` is the same for two library routines that agree on the coefficient map. -/
theorem xirrRun_congr (p1 p2 : F64 → F64 → F64) (account : Account) (c : CoefMap)
    (hc : account.coefficient = some c) (h : ∀ x, evalSum p1 c x = evalSum p2 c x) :
    account.xirrRun p1 = account.xirrRun p2 := by
  unfold Account.xirrRun
  rw [hc]
  simp only
  rw [solve_congr p1 p2 c h]

/-! ### C4: Scenario A -/

theorem mathPow_zero (powLib : F64 → F64 → F64) (x : F64) : mathPow powLib x 0 = 1 := by
  have h : F64.eq 0 0 = true := by decide!
  simp [mathPow, h]

theorem mathPow_one (powLib : F64 → F64 → F64) (x : F64) :
    mathPow powLib x 1 = if F64.eq x 1 = true then 1 else x := by
  have h0 : F64.eq 1 0 = false := by decide!
  have h1 : F64.eq 1 1 = true := by decide!
  simp [mathPow, h0, h1]

/-- On a polynomial with the exponents 0 and 1 only, the library routine is not consulted. -/
theorem evalSum_linear (powLib : F64 → F64 → F64) (c0 c1 x : F64) :
    evalSum powLib [(0, c0), (1, c1)] x = evalSum powNone [(0, c0), (1, c1)] x := by
  simp only [evalSum, List.foldl, mathPow_zero, mathPow_one]

/-- C4: Scenario A (opening -1000, closing 1100 one year later, nothing in between). The
polynomial is `-1000 x^0 + 1100 x^1`; the secant phase from 0.5 and 1 meets its
convergence test at the double nearest to 10/11 and returns it with no error;
`xirr` returns no error and the rate `-1 + 1/root`, within 0.0005 of 0.10. -/
theorem C4_scenario_A (powLib : F64 → F64 → F64) :
    scenarioA.coefficient = some scenarioPoly ∧
    (secantRun powLib (NewPolynom scenarioPoly) F64.half 1 precision maxDepth).stop
      = .converged ∧
    ((NewPolynom scenarioPoly).Secant powLib F64.half 1 precision maxDepth).1 = tenElevenths ∧
    ((NewPolynom scenarioPoly).Secant powLib F64.half 1 precision maxDepth).2.1 = none ∧
    scenarioA.xirrRun powLib = some ⟨-1 + 1 / tenElevenths, none, [.secant]⟩ ∧
    scenarioA.xirr powLib = some (-1 + 1 / tenElevenths, none) ∧
    F64.le (F64.abs ((-1 + 1 / tenElevenths) - 1 / 10)) (5 / 10000) = true := by
  have hc : scenarioA.coefficient = some scenarioPoly := by decide!
  have hev : ∀ x, evalSum powLib scenarioPoly x = evalSum powNone scenarioPoly x :=
    fun x => evalSum_linear powLib _ _ x
  have hrun := xirrRun_congr powLib powNone scenarioA scenarioPoly hc hev
  have hsec := secantRun_congr powLib powNone scenarioPoly hev (NewPolynom scenarioPoly) rfl
    F64.half 1 precision maxDepth
  have hx : scenarioA.xirrRun powNone = some ⟨-1 + 1 / tenElevenths, none, [.secant]⟩ := by
    decide!
  have hs0 : secantRun powNone (NewPolynom scenarioPoly) F64.half 1 precision maxDepth =
      ⟨tenElevenths, none,
        ⟨scenarioPoly, some 1, some F64.half, 1⟩, .converged⟩ := by decide!
  have hs1 := hsec.trans hs0
  refine ⟨hc, ?_, ?_, ?_, ?_, ?_, by decide!⟩
  · rw [hs1]
  · unfold Polynom.Secant; rw [hs1]
  · unfold Polynom.Secant; rw [hs1]
  · rw [hrun, hx]
  · rw [xirr_eq, hrun, hx]; rfl

/-- C4 (witness): Scenario A with the library routine left out. -/
theorem C4_scenario_A_witness :
    scenarioA.xirr powNone = some (-1 + 1 / tenElevenths, none) ∧
    F64.le (F64.abs ((-1 + 1 / tenElevenths) - 1 / 10)) (5 / 10000) = true :=
  ⟨(C4_scenario_A powNone).2.2.2.2.2.1, (C4_scenario_A powNone).2.2.2.2.2.2⟩

/-! ### C5: the secant phase that uses up its iterations -/

/-- When the secant phase is exhausted, `Secant` returns the zero value and a nil error, and
`xirr` has no fallback: it reads the zero value as a root and reports
"got root of 0, meaning infinite IRR" after the secant phase alone. -/
theorem exhausted_secant_no_fallback (powLib : F64 → F64 → F64) (account : Account)
    (coefficient : CoefMap) (hc : account.coefficient = some coefficient)
    (hlen : coefficient.length ≥ 2)
    (hex : (secantRun powLib (NewPolynom coefficient) F64.half 1 precision maxDepth).stop
      = .exhausted) :
    ((NewPolynom coefficient).Secant powLib F64.half 1 precision maxDepth).1 = 0 ∧
    ((NewPolynom coefficient).Secant powLib F64.half 1 precision maxDepth).2.1 = none ∧
    account.xirrRun powLib = some ⟨0, some .infiniteIRR, [.secant]⟩ := by
  obtain ⟨-, -, he, -⟩ := secantRun_spec powLib (NewPolynom coefficient) F64.half 1 precision
    maxDepth
  obtain ⟨herr, hroot⟩ := he hex
  have hs : solve powLib coefficient = (some (0, none), [.secant]) := by
    unfold solve Polynom.Secant
    simp only [herr, hroot]
    rfl
  refine ⟨hroot, herr, ?_⟩
  rw [xirrRun_solved powLib account coefficient 0 none [.secant] hc hlen hs]
  have h0 : F64.eq 0 0 = true := by decide!
  rw [if_pos h0]

theorem powSmall_two (x : F64) : powSmall x 2 = x * x := by
  have h : F64.eq 2 2 = true := by decide!
  simp only [powSmall, h, if_true]

theorem powSmall_three (x : F64) : powSmall x 3 = x * (x * x) := by
  have h : F64.eq 3 2 = false := by decide!
  simp only [powSmall, h, if_false, Bool.false_eq_true]

theorem evalSum_flat (powLib : F64 → F64 → F64) (hpow : ∀ x, powLib x 2 = x * x) (x : F64) :
    evalSum powLib flatPoly x = evalSum powSmall flatPoly x := by
  have h0 : F64.eq 2 0 = false := by decide!
  have h1 : F64.eq 2 1 = false := by decide!
  have h2 : F64.eq 2 2 = true := by decide!
  simp only [evalSum, flatPoly, List.foldl, mathPow_zero]
  simp only [mathPow, h0, h1, hpow, powSmall, h2, if_true]

set_option maxRecDepth 100000 in
/-- C5 (the code at the failing input): on the account with balance 1000 at both ends of
two years, with a library `math.Pow` that squares, the secant phase runs its 100
iterations without meeting the convergence test; `Secant` returns the zero value
and a nil error; `xirr` runs no bracket discovery and no Brent, and returns rate 0
with "got root of 0, meaning infinite IRR". -/
theorem C5_exhausted_secant_reports_infinite (powLib : F64 → F64 → F64)
    (hpow : ∀ x, powLib x 2 = x * x) :
    flatAccount.coefficient = some flatPoly ∧
    (secantRun powLib (NewPolynom flatPoly) F64.half 1 precision maxDepth).stop = .exhausted ∧
    ((NewPolynom flatPoly).Secant powLib F64.half 1 precision maxDepth).1 = 0 ∧
    ((NewPolynom flatPoly).Secant powLib F64.half 1 precision maxDepth).2.1 = none ∧
    flatAccount.xirrRun powLib = some ⟨0, some .infiniteIRR, [.secant]⟩ := by
  have hc : flatAccount.coefficient = some flatPoly := by decide!
  have hev := evalSum_flat powLib hpow
  have hsec := secantRun_congr powLib powSmall flatPoly hev (NewPolynom flatPoly) rfl
    F64.half 1 precision maxDepth
  have hex0 : (secantRun powSmall (NewPolynom flatPoly) F64.half 1 precision maxDepth).stop
      = .exhausted := by decide!
  have hex : (secantRun powLib (NewPolynom flatPoly) F64.half 1 precision maxDepth).stop
      = .exhausted := (congrArg SolverResult.stop hsec).trans hex0
  obtain ⟨h1, h2, h3⟩ := exhausted_secant_no_fallback powLib flatAccount flatPoly hc
    (by decide!) hex
  exact ⟨hc, hex, h1, h2, h3⟩

/-- C5 (witness): the failing input with the squaring routine. -/
theorem C5_exhausted_secant_reports_infinite_witness :
    flatAccount.xirrRun powSmall = some ⟨0, some .infiniteIRR, [.secant]⟩ :=
  (C5_exhausted_secant_reports_infinite powSmall powSmall_two).2.2.2.2

/-! ### C7: a failure of Brent is replaced by "infinite IRR" -/

/-- Whenever the Brent phase of `xirr` ends in an error other than its two diagnostics
(`brentNotRoot`, `brentSameSign`), its `root` is the zero value, and `xirr`
replaces the error by "got root of 0, meaning infinite IRR". -/
theorem brent_failure_masked (powLib : F64 → F64 → F64) (account : Account)
    (coefficient : CoefMap) (root : F64) (e : Err)
    (hc : account.coefficient = some coefficient) (hlen : coefficient.length ≥ 2)
    (hs : solve powLib coefficient = (some (root, some e), [.secant, .bracket, .brent]))
    (he1 : e ≠ .brentNotRoot) (he2 : e ≠ .brentSameSign) :
    account.xirr powLib = some (0, some .infiniteIRR) := by
  have hroot : root = 0 := by
    unfold solve at hs
    simp only at hs
    split_ifs at hs with h1
    · split at hs
      · rename_i a b _ _
        simp only [Prod.mk.injEq, Option.some.injEq, and_true] at hs
        obtain ⟨hr, he⟩ := hs
        have hb := (Brent_spec powLib (bracketLoop powLib maxPosNegPoints.toNat 1
          (Polynom.Secant powLib (NewPolynom coefficient) F64.half 1 precision maxDepth).2.2)
          a b precision maxDepth).2
        rw [hr, he] at hb
        rcases hb with hb | hb | hb | hb
        · exact hb
        · exact absurd (Option.some.inj hb) he1
        · exact absurd (Option.some.inj hb) he2
        · exact absurd hb (by simp)
      · simp at hs
    · simp at hs
  have h0 : F64.eq root 0 = true := by rw [hroot]; decide!
  rw [xirr_eq, xirrRun_solved powLib account coefficient root (some e) _ hc hlen hs, if_pos h0]
  rfl

theorem evalSum_cubic (powLib : F64 → F64 → F64) (hpow : ∀ x, powLib x 3 = x * (x * x))
    (x : F64) : evalSum powLib cubicPoly x = evalSum powSmall cubicPoly x := by
  have h0 : F64.eq 3 0 = false := by decide!
  have h1 : F64.eq 3 1 = false := by decide!
  have h2 : F64.eq 3 2 = false := by decide!
  simp only [evalSum, cubicPoly, List.foldl, mathPow_zero]
  simp only [mathPow, h0, h1, hpow, powSmall, h2, if_false, Bool.false_eq_true]

set_option maxRecDepth 100000 in
/-- C7 (the code at the failing input): on the account with opening 7 and closing 25 after
three years, with a library `math.Pow` that cubes, the secant phase ends in an
error, bracket discovery succeeds, and Brent fails with "reached maximum
iterations"; `xirr` does not report that error but "got root of 0, meaning
infinite IRR". -/
theorem C7_brent_failure_is_replaced (powLib : F64 → F64 → F64)
    (hpow : ∀ x, powLib x 3 = x * (x * x)) :
    cubicAccount.coefficient = some cubicPoly ∧
    solve powLib cubicPoly =
      (some (0, some .brentMaxIterations), [.secant, .bracket, .brent]) ∧
    cubicAccount.xirr powLib = some (0, some .infiniteIRR) := by
  have hc : cubicAccount.coefficient = some cubicPoly := by decide!
  have hev := evalSum_cubic powLib hpow
  have hs0 : solve powSmall cubicPoly =
      (some (0, some .brentMaxIterations), [.secant, .bracket, .brent]) := by decide!
  have hs : solve powLib cubicPoly =
      (some (0, some .brentMaxIterations), [.secant, .bracket, .brent]) :=
    (solve_congr powLib powSmall cubicPoly hev).trans hs0
  exact ⟨hc, hs, brent_failure_masked powLib cubicAccount cubicPoly 0 .brentMaxIterations hc
    (by decide!) hs (by decide) (by decide)⟩

/-- C7 (witness): the failing input with the cubing routine. -/
theorem C7_brent_failure_is_replaced_witness :
    cubicAccount.xirr powSmall = some (0, some .infiniteIRR) :=
  (C7_brent_failure_is_replaced powSmall powSmall_three).2.2

/-! ### C8: the reference start date -/

/-- The start date that `xirr` uses: the time of the opening entry; else the time of the
intermediate entry supplied first; else the closing time. -/
theorem startDt_cases (account : Account) :
    (∀ o, account.Opening = some o → account.startDt = some o.Time) ∧
    (∀ c rest, account.Opening = none → account.Cashflow = c :: rest →
      account.startDt = some c.Time) ∧
    (∀ cl, account.Opening = none → account.Cashflow = [] → account.Closing = some cl →
      account.startDt = some cl.Time) := by
  refine ⟨?_, ?_, ?_⟩
  · intro o h; simp [Account.startDt, h]
  · intro c rest h1 h2; simp [Account.startDt, h1, h2]
  · intro cl h1 h2 h3; simp [Account.startDt, h1, h2, h3]

/-- C8 (the code at the failing input): for the account whose intermediate entries come as
day 151, day 0, the start date of `xirr` is day 151, not the earliest time day 0
that the specification names; the entry of day 0 then gets a negative exponent. -/
theorem C8_start_date_is_first_supplied :
    unsortedAccount.startDt = some ⟨151 * DAY⟩ ∧
    startDtSpec unsortedAccount = some ⟨0⟩ ∧
    unsortedAccount.startDt ≠ startDtSpec unsortedAccount ∧
    F64.lt (exponent ⟨151 * DAY⟩ ⟨⟨0⟩, F64.ofInt (-1000), "Deposit"⟩) 0 = true := by
  decide!

/-! ### C11: the rejection test of `Brent` -/

/-- The interval test of the code, `s < (3a+b)/4 && s > b`, holds only for a point strictly
between `b` and `(3a+b)/4`: never for a point outside the interval. -/
theorem interval_test_false_of_outside (a b s : F64) (h : outsideInterval a b s = true) :
    (F64.lt s ((3 * a + b) / 4) && F64.gt s b) = false := by
  unfold outsideInterval at h
  simp only [Bool.or_eq_true, Bool.and_eq_true] at h
  rcases h with ⟨_, h2⟩ | ⟨h1, _⟩
  · have := F64.lt_asymm _ _ h2
    simp [F64.gt, this]
  · have := F64.lt_asymm _ _ h1
    simp [this]

/-- What the code does with a point outside the interval: it is rejected exactly when one of
the two progress tests rejects it (the second of them with the fresh `d = 0`). -/
theorem reject_of_outside (a b c s : F64) (mflag : Int) (h : outsideInterval a b s = true) :
    brentReject a b c 0 s mflag =
      ((decide (mflag = 1) && F64.ge (F64.abs (s - b)) (F64.abs (b - c) / 2)) ||
        (decide (mflag = 0) && F64.ge (F64.abs (s - b)) (F64.abs (c - 0) / 2))) := by
  unfold brentReject
  rw [interval_test_false_of_outside a b s h]
  simp

theorem brentTrial_eq (a b c f_a f_b f_c : F64) (mflag : Int) :
    brentTrial a b c f_a f_b f_c mflag =
      if brentReject a b c 0 (brentInterpolate a b c f_a f_b f_c) mflag = true
      then ((a + b) / 2, 1) else (brentInterpolate a b c f_a f_b f_c, 0) := rfl

/-- The body of the loop evaluates the trial point of `brentTrial` and stores its `mflag`. -/
theorem brentStep_trial (powLib : F64 → F64 → F64) (st st2 : BrentState)
    (h : brentStep powLib st = .ok st2) :
    st2.mflag = (brentTrial st.a st.b st.c st.f_a st.f_b st.f_c st.mflag).2 ∧
    st2.poly = { (st.poly.Eval powLib
        (brentTrial st.a st.b st.c st.f_a st.f_b st.f_c st.mflag).1).2 with
      iterations := st.poly.iterations + 1 } := by
  unfold brentStep at h
  simp only at h
  split_ifs at h <;> cases h <;> simp [Eval_iterations]

/-- The part of `Brent` before the loop, and the loop, make up `Brent`. -/
theorem Brent_of_start (powLib : F64 → F64 → F64) (poly : Polynom) (a b precision : F64)
    (max_depth : Int) (st : BrentState) (err : Option Err)
    (h : brentStart powLib poly a b = some (st, err)) :
    poly.Brent powLib a b precision max_depth =
      brentLoop powLib precision max_depth (max_depth + 1).toNat st err := by
  unfold brentStart at h
  unfold Polynom.Brent
  simp only at h ⊢
  split_ifs at h ⊢
  all_goals (simp only [Option.some.injEq, Prod.mk.injEq] at h; rw [← h.1, ← h.2])

/-- The loop of `Brent` goes through every state that `brentHead` reports. -/
theorem brentLoop_head (powLib : F64 → F64 → F64) (precision : F64) (max_depth : Int)
    (err : Option Err) (fuel n : Nat) :
    ∀ (st st2 : BrentState), brentHead powLib precision max_depth n st = some st2 →
      brentLoop powLib precision max_depth (fuel + n) st err =
        brentLoop powLib precision max_depth fuel st2 err := by
  induction n with
  | zero =>
    intro st st2 h
    simp only [brentHead, Option.some.injEq] at h
    rw [h]; rfl
  | succ n ih =>
    intro st st2 h
    rw [brentHead] at h
    rw [show fuel + (n + 1) = (fuel + n) + 1 from rfl, brentLoop]
    split_ifs at h ⊢ with h1 h2
    cases hre : brentReeval powLib st with
    | error r => simp [hre] at h
    | ok st3 =>
      simp only [hre] at h ⊢
      cases hst : brentStep powLib st3 with
      | error r => simp [hst] at h
      | ok st4 =>
        simp only [hst] at h ⊢
        exact ih st4 st2 h

theorem brentStart_congr (p1 p2 : F64 → F64 → F64) (c : CoefMap)
    (h : ∀ x, evalSum p1 c x = evalSum p2 c x) (poly : Polynom) (hc : poly.polynom = c)
    (a b : F64) : brentStart p1 poly a b = brentStart p2 poly a b := by
  unfold brentStart
  have hc1 : ({ poly with iterations := 0 } : Polynom).polynom = c := hc
  have hc2 : (Polynom.Eval p2 { poly with iterations := 0 } a).2.polynom = c := by
    rw [Eval_polynom]; exact hc
  simp only
  rw [Eval_congr p1 p2 c h _ hc1, Eval_congr p1 p2 c h _ hc2]

theorem brentStart_polynom (powLib : F64 → F64 → F64) (poly : Polynom) (a b : F64)
    (st : BrentState) (err : Option Err) (h : brentStart powLib poly a b = some (st, err)) :
    st.poly.polynom = poly.polynom := by
  unfold brentStart at h
  simp only at h
  split_ifs at h
  all_goals (simp only [Option.some.injEq, Prod.mk.injEq] at h; rw [← h.1]
             simp only [Eval_polynom])

theorem brentHead_congr (p1 p2 : F64 → F64 → F64) (c : CoefMap)
    (h : ∀ x, evalSum p1 c x = evalSum p2 c x) (precision : F64) (max_depth : Int) (n : Nat) :
    ∀ (st : BrentState), st.poly.polynom = c →
      brentHead p1 precision max_depth n st = brentHead p2 precision max_depth n st := by
  induction n with
  | zero => intro st _; rfl
  | succ n ih =>
    intro st hc
    conv_lhs => rw [brentHead]
    conv_rhs => rw [brentHead]
    rw [brentReeval_congr p1 p2 c h st hc]
    cases hre : brentReeval p2 st with
    | error r => rfl
    | ok st3 =>
      have hc3 : st3.poly.polynom = c := (brentReeval_ok p2 st st3 hre).1.trans hc
      simp only
      rw [brentStep_congr p1 p2 c h st3 hc3]
      cases hst : brentStep p2 st3 with
      | error r => rfl
      | ok st4 =>
        have hc4 : st4.poly.polynom = c := (brentStep_ok p2 st3 st4 hst).1.trans hc3
        simp only
        rw [ih st4 hc4]

theorem brentHead_polynom (powLib : F64 → F64 → F64) (precision : F64) (max_depth : Int)
    (n : Nat) : ∀ (st st2 : BrentState), brentHead powLib precision max_depth n st = some st2 →
      st2.poly.polynom = st.poly.polynom := by
  induction n with
  | zero =>
    intro st st2 h
    simp only [brentHead, Option.some.injEq] at h
    rw [h]
  | succ n ih =>
    intro st st2 h
    rw [brentHead] at h
    split_ifs at h
    cases hre : brentReeval powLib st with
    | error r => simp [hre] at h
    | ok st3 =>
      simp only [hre] at h
      cases hst : brentStep powLib st3 with
      | error r => simp [hst] at h
      | ok st4 =>
        simp only [hst] at h
        rw [ih st4 st2 h, (brentStep_ok powLib st3 st4 hst).1,
          (brentReeval_ok powLib st st3 hre).1]

theorem brentDecision_congr (p1 p2 : F64 → F64 → F64) (c : CoefMap)
    (h : ∀ x, evalSum p1 c x = evalSum p2 c x) (poly : Polynom) (hc : poly.polynom = c)
    (a b precision : F64) (max_depth : Int) (n : Nat) :
    brentDecision p1 poly a b precision max_depth n =
      brentDecision p2 poly a b precision max_depth n := by
  unfold brentDecision
  rw [brentStart_congr p1 p2 c h poly hc]
  cases hs : brentStart p2 poly a b with
  | none => rfl
  | some r =>
    obtain ⟨st, err⟩ := r
    have hc1 : st.poly.polynom = c := (brentStart_polynom p2 poly a b st err hs).trans hc
    simp only
    rw [brentHead_congr p1 p2 c h precision max_depth n st hc1]
    cases hh : brentHead p2 precision max_depth n st with
    | none => rfl
    | some st2 =>
      have hc2 : st2.poly.polynom = c :=
        (brentHead_polynom p2 precision max_depth n st st2 hh).trans hc1
      simp only
      rw [brentReeval_congr p1 p2 c h st2 hc2]

theorem xirrBracket_congr (p1 p2 : F64 → F64 → F64) (c : CoefMap)
    (h : ∀ x, evalSum p1 c x = evalSum p2 c x) : xirrBracket p1 c = xirrBracket p2 c := by
  unfold xirrBracket Polynom.Secant
  have hc0 : (NewPolynom c).polynom = c := rfl
  simp only
  rw [secantRun_congr p1 p2 c h _ hc0]
  have hc1 : (secantRun p2 (NewPolynom c) F64.half 1 precision maxDepth).poly.polynom = c :=
    (secantRun_spec p2 (NewPolynom c) F64.half 1 precision maxDepth).1
  rw [bracketLoop_congr p1 p2 c h _ 1 _ hc1]

theorem xirrBracket_polynom (powLib : F64 → F64 → F64) (c : CoefMap) (poly : Polynom)
    (a b : F64) (h : xirrBracket powLib c = some (poly, a, b)) : poly.polynom = c := by
  unfold xirrBracket Polynom.Secant at h
  simp only at h
  split_ifs at h
  split at h
  · simp only [Option.some.injEq, Prod.mk.injEq] at h
    rw [← h.1, bracketLoop_polynom]
    exact (secantRun_spec powLib (NewPolynom c) F64.half 1 precision maxDepth).1
  · simp at h

/-- The bracket of `xirrBracket` is the one `solve` runs `Brent` on. -/
theorem solve_of_bracket (powLib : F64 → F64 → F64) (c : CoefMap) (poly : Polynom)
    (a b : F64) (h : xirrBracket powLib c = some (poly, a, b)) :
    solve powLib c = (some ((poly.Brent powLib a b precision maxDepth).1,
      (poly.Brent powLib a b precision maxDepth).2.1), [.secant, .bracket, .brent]) := by
  unfold xirrBracket at h
  unfold solve
  simp only at h ⊢
  split_ifs at h ⊢
  split at h
  · rename_i a2 b2 hn hp
    simp only [Option.some.injEq, Prod.mk.injEq] at h
    obtain ⟨h1, h2, h3⟩ := h
    rw [← h1, ← h2, ← h3]
  · simp at h

theorem evalSum_parabola (powLib : F64 → F64 → F64) (hpow : ∀ x, powLib x 2 = x * x) (x : F64) :
    evalSum powLib parabola x = evalSum powSmall parabola x := by
  have h0 : F64.eq 2 0 = false := by decide!
  have h1 : F64.eq 2 1 = false := by decide!
  have h2 : F64.eq 2 2 = true := by decide!
  simp only [evalSum, parabola, List.foldl, mathPow_zero]
  simp only [mathPow, h0, h1, hpow, powSmall, h2, if_true]

theorem evalSum_threeTerm (powLib : F64 → F64 → F64) (hpow : ∀ x, powLib x 3 = x * (x * x))
    (x : F64) : evalSum powLib threeTermPoly x = evalSum powSmall threeTermPoly x := by
  have h0 : F64.eq 3 0 = false := by decide!
  have h1 : F64.eq 3 1 = false := by decide!
  have h2 : F64.eq 3 2 = false := by decide!
  simp only [evalSum, threeTermPoly, List.foldl, mathPow_zero, mathPow_one]
  simp only [mathPow, h0, h1, hpow, powSmall, h2, if_false, Bool.false_eq_true]

/-- A pass whose interpolated point is outside the interval and whose new `mflag` is 0 does
not follow the rule of the specification. -/
theorem not_spec_of_summary (d : BrentState × F64 × F64 × Int) (a b c s t : F64) (m : Int)
    (h : decisionSummary d = ⟨a, b, c, m, s, t, 0, true⟩) : ¬ RejectionSpec d := by
  simp only [decisionSummary, PassSummary.mk.injEq] at h
  obtain ⟨_, _, _, _, _, _, hm, hout⟩ := h
  intro hspec
  have h1 := (hspec hout).2
  rw [hm] at h1
  exact absurd h1 (by decide)

set_option maxRecDepth 100000 in
/-- C11 (the code at the failing inputs): with a library `math.Pow` that squares and cubes,
(1) in the second pass of `Brent(-3, 2, precision, maxDepth)` on `x^2 - 5` the state is
`a = -3`, `b = 1`, `c = 2`, `mflag = 0`, the interpolated point is `1.6666666666666665`,
above both `(3a+b)/4 = -2` and `b = 1`, and it is not rejected: the trial point is the
interpolated point and `mflag` is set to 0; (2) on the account with opening 117, a cash
flow of -261 after one year and closing 241 after three years, `xirr` gets to `Brent`,
whose second pass has `a = -11.560403910306585`, `b = 0.49945695080877683`, `c = 0.5`,
interpolates `0.7066503944643614`, above both ends of the interval, and evaluates it
with `mflag` set to 0; `xirr` then returns a rate near -1.82 with no error. -/
theorem C11_outside_point_is_evaluated (powLib : F64 → F64 → F64)
    (hsquare : ∀ x, powLib x 2 = x * x) (hcube : ∀ x, powLib x 3 = x * (x * x)) :
    (brentDecision powLib (NewPolynom parabola) (F64.ofInt (-3)) 2 precision maxDepth 1).map
        decisionSummary =
      some ⟨F64.ofInt (-3), 1, 2, 0, parabolaPoint, parabolaPoint, 0, true⟩ ∧
    (∀ d, brentDecision powLib (NewPolynom parabola) (F64.ofInt (-3)) 2 precision maxDepth 1
        = some d → ¬ RejectionSpec d) ∧
    threeTermAccount.coefficient = some threeTermPoly ∧
    (xirrBracket powLib threeTermPoly).bind
        (fun r => (brentDecision powLib r.1 r.2.1 r.2.2 precision maxDepth 1).map
          decisionSummary) =
      some ⟨threeTermLow, threeTermBest, F64.half, 0, threeTermPoint, threeTermPoint, 0, true⟩ ∧
    (∀ poly a b d, xirrBracket powLib threeTermPoly = some (poly, a, b) →
      brentDecision powLib poly a b precision maxDepth 1 = some d → ¬ RejectionSpec d) ∧
    threeTermAccount.xirrRun powLib =
      some ⟨threeTermRate, none, [.secant, .bracket, .brent]⟩ := by
  have hev2 := evalSum_parabola powLib hsquare
  have hev3 := evalSum_threeTerm powLib hcube
  have hc : threeTermAccount.coefficient = some threeTermPoly := by decide!
  have hd0 : (brentDecision powSmall (NewPolynom parabola) (F64.ofInt (-3)) 2 precision
      maxDepth 1).map decisionSummary =
      some ⟨F64.ofInt (-3), 1, 2, 0, parabolaPoint, parabolaPoint, 0, true⟩ := by decide!
  have hd : (brentDecision powLib (NewPolynom parabola) (F64.ofInt (-3)) 2 precision
      maxDepth 1).map decisionSummary =
      some ⟨F64.ofInt (-3), 1, 2, 0, parabolaPoint, parabolaPoint, 0, true⟩ := by
    rw [brentDecision_congr powLib powSmall parabola hev2 (NewPolynom parabola) rfl]
    exact hd0
  have hb0 : (xirrBracket powSmall threeTermPoly).bind
      (fun r => (brentDecision powSmall r.1 r.2.1 r.2.2 precision maxDepth 1).map
        decisionSummary) =
      some ⟨threeTermLow, threeTermBest, F64.half, 0, threeTermPoint, threeTermPoint, 0, true⟩ := by
    decide!
  have hbr := xirrBracket_congr powLib powSmall threeTermPoly hev3
  have hb : (xirrBracket powLib threeTermPoly).bind
      (fun r => (brentDecision powLib r.1 r.2.1 r.2.2 precision maxDepth 1).map
        decisionSummary) =
      some ⟨threeTermLow, threeTermBest, F64.half, 0, threeTermPoint, threeTermPoint, 0, true⟩ := by
    rw [← hb0, hbr]
    cases hx : xirrBracket powSmall threeTermPoly with
    | none => rfl
    | some r =>
      obtain ⟨poly, a, b⟩ := r
      have hp : poly.polynom = threeTermPoly := by
        rw [← hbr] at hx
        exact xirrBracket_polynom powLib threeTermPoly poly a b hx
      simp only [Option.bind]
      rw [brentDecision_congr powLib powSmall threeTermPoly hev3 poly hp]
  have hr0 : threeTermAccount.xirrRun powSmall =
      some ⟨threeTermRate, none, [.secant, .bracket, .brent]⟩ := by decide!
  refine ⟨hd, ?_, hc, hb, ?_, ?_⟩
  · intro d h
    rw [h] at hd
    simp only [Option.map_some', Option.some.injEq] at hd
    exact not_spec_of_summary d _ _ _ _ _ _ hd
  · intro poly a b d hx h
    rw [hx] at hb
    simp only [Option.bind, h, Option.map_some', Option.some.injEq] at hb
    exact not_spec_of_summary d _ _ _ _ _ _ hb
  · exact (xirrRun_congr powLib powSmall threeTermAccount threeTermPoly hc hev3).trans hr0

/-- C11 (witness): the failing inputs with the routine that squares and cubes. -/
theorem C11_outside_point_is_evaluated_witness :
    (brentDecision powSmall (NewPolynom parabola) (F64.ofInt (-3)) 2 precision maxDepth 1).map
        decisionSummary =
      some ⟨F64.ofInt (-3), 1, 2, 0, parabolaPoint, parabolaPoint, 0, true⟩ ∧
    threeTermAccount.xirrRun powSmall =
      some ⟨threeTermRate, none, [.secant, .bracket, .brent]⟩ :=
  ⟨(C11_outside_point_is_evaluated powSmall powSmall_two powSmall_three).1,
    (C11_outside_point_is_evaluated powSmall powSmall_two powSmall_three).2.2.2.2.2⟩

/-! ### C3: a value returned with no error and the sanity test -/

/-- A return of `Secant` with a nil error hands over a value that passes the sanity test,
or the zero value of the result variable. -/
theorem secant_nil_error_cases (powLib : F64 → F64 → F64) (poly : Polynom)
    (p0 p1 precision : F64) (max_depth : Int)
    (h : (poly.Secant powLib p0 p1 precision max_depth).2.1 = none) :
    F64.lt (F64.abs (evalSum powLib poly.polynom
        (poly.Secant powLib p0 p1 precision max_depth).1)) 1 = true ∨
      (poly.Secant powLib p0 p1 precision max_depth).1 = 0 := by
  obtain ⟨-, hf, he, hc⟩ := secantRun_spec powLib poly p0 p1 precision max_depth
  have herr : (secantRun powLib poly p0 p1 precision max_depth).err = none := h
  cases hs : (secantRun powLib poly p0 p1 precision max_depth).stop with
  | failed => exact absurd herr (hf hs).1
  | exhausted => exact Or.inr (he hs).2
  | converged => exact Or.inl ((hc hs).1 herr)

theorem Secant_results (powLib : F64 → F64 → F64) (poly : Polynom) (p0 p1 precision : F64)
    (max_depth : Int) :
    (poly.Secant powLib p0 p1 precision max_depth).1 =
        (secantRun powLib poly p0 p1 precision max_depth).root ∧
      (poly.Secant powLib p0 p1 precision max_depth).2.1 =
        (secantRun powLib poly p0 p1 precision max_depth).err := ⟨rfl, rfl⟩

/-- A result `(0, nil)` on a polynomial whose value at 0 is 1000 does not have the property
of the specification. -/
theorem not_verified_of_zero (powLib : F64 → F64 → F64) (poly : Polynom)
    (result : F64 × Option Err × Polynom) (hroot : result.1 = 0) (herr : result.2.1 = none)
    (hval : F64.abs (evalSum powLib poly.polynom 0) = 1000) :
    ¬ VerifiedSpec powLib poly result := by
  intro hspec
  have h1 := hspec herr
  rw [hroot, Eval_fst, hval] at h1
  exact absurd h1 (by decide!)

set_option maxRecDepth 100000 in
/-- C3 (the code at the failing inputs): a return of `Secant` with no error whose value does
not pass the sanity test. (1) With the iteration cap 0 the loop of `Secant` is not
entered: on `-1000 + 1100 x` from 0.5 and 1, `Secant` returns the zero value with a nil
error, and the polynomial at 0 is -1000. (2) On the account with balance 1000 at both
ends of two years, with a library `math.Pow` that squares, `Secant` at the settings of
`xirr` (from 0.5 and 1, precision 0.000001, cap 100) uses up its cap and returns the
zero value with a nil error, and the polynomial `1000 + 1000 x^2` at 0 is 1000. -/
theorem C3_exhausted_secant_is_unverified (powLib : F64 → F64 → F64)
    (hsquare : ∀ x, powLib x 2 = x * x) :
    ((NewPolynom scenarioPoly).Secant powLib F64.half 1 precision 0).1 = 0 ∧
    ((NewPolynom scenarioPoly).Secant powLib F64.half 1 precision 0).2.1 = none ∧
    F64.abs ((NewPolynom scenarioPoly).Eval powLib 0).1 = 1000 ∧
    ¬ VerifiedSpec powLib (NewPolynom scenarioPoly)
      ((NewPolynom scenarioPoly).Secant powLib F64.half 1 precision 0) ∧
    flatAccount.coefficient = some flatPoly ∧
    ((NewPolynom flatPoly).Secant powLib F64.half 1 precision maxDepth).1 = 0 ∧
    ((NewPolynom flatPoly).Secant powLib F64.half 1 precision maxDepth).2.1 = none ∧
    F64.abs ((NewPolynom flatPoly).Eval powLib 0).1 = 1000 ∧
    ¬ VerifiedSpec powLib (NewPolynom flatPoly)
      ((NewPolynom flatPoly).Secant powLib F64.half 1 precision maxDepth) := by
  have hc : flatAccount.coefficient = some flatPoly := by decide!
  have hlin : ∀ x, evalSum powLib scenarioPoly x = evalSum powNone scenarioPoly x :=
    fun x => evalSum_linear powLib _ _ x
  have hflat := evalSum_flat powLib hsquare
  have hs0 : secantRun powLib (NewPolynom scenarioPoly) F64.half 1 precision 0 =
      secantRun powNone (NewPolynom scenarioPoly) F64.half 1 precision 0 :=
    secantRun_congr powLib powNone scenarioPoly hlin (NewPolynom scenarioPoly) rfl _ _ _ _
  have hs1 : secantRun powLib (NewPolynom flatPoly) F64.half 1 precision maxDepth =
      secantRun powSmall (NewPolynom flatPoly) F64.half 1 precision maxDepth :=
    secantRun_congr powLib powSmall flatPoly hflat (NewPolynom flatPoly) rfl _ _ _ _
  have hr0 : ((secantRun powNone (NewPolynom scenarioPoly) F64.half 1 precision 0).root,
      (secantRun powNone (NewPolynom scenarioPoly) F64.half 1 precision 0).err) = (0, none) := by
    decide!
  have hr1 : ((secantRun powSmall (NewPolynom flatPoly) F64.half 1 precision maxDepth).root,
      (secantRun powSmall (NewPolynom flatPoly) F64.half 1 precision maxDepth).err)
      = (0, none) := by decide!
  rw [Prod.mk.injEq] at hr0 hr1
  have hv0 : F64.abs (evalSum powLib scenarioPoly 0) = 1000 := by
    rw [hlin]; decide!
  have hv1 : F64.abs (evalSum powLib flatPoly 0) = 1000 := by
    rw [hflat]; decide!
  have hroot0 : ((NewPolynom scenarioPoly).Secant powLib F64.half 1 precision 0).1 = 0 := by
    rw [(Secant_results powLib _ _ _ _ _).1, hs0]; exact hr0.1
  have herr0 : ((NewPolynom scenarioPoly).Secant powLib F64.half 1 precision 0).2.1 = none := by
    rw [(Secant_results powLib _ _ _ _ _).2, hs0]; exact hr0.2
  have hroot1 : ((NewPolynom flatPoly).Secant powLib F64.half 1 precision maxDepth).1 = 0 := by
    rw [(Secant_results powLib _ _ _ _ _).1, hs1]; exact hr1.1
  have herr1 : ((NewPolynom flatPoly).Secant powLib F64.half 1 precision maxDepth).2.1
      = none := by
    rw [(Secant_results powLib _ _ _ _ _).2, hs1]; exact hr1.2
  refine ⟨hroot0, herr0, ?_, not_verified_of_zero powLib _ _ hroot0 herr0 hv0, hc, hroot1,
    herr1, ?_, not_verified_of_zero powLib _ _ hroot1 herr1 hv1⟩
  · rw [Eval_fst]; exact hv0
  · rw [Eval_fst]; exact hv1

/-- C3 (witness): the failing inputs with the squaring routine. -/
theorem C3_exhausted_secant_is_unverified_witness :
    ((NewPolynom flatPoly).Secant powSmall F64.half 1 precision maxDepth).1 = 0 ∧
    ((NewPolynom flatPoly).Secant powSmall F64.half 1 precision maxDepth).2.1 = none ∧
    F64.abs ((NewPolynom flatPoly).Eval powSmall 0).1 = 1000 :=
  ⟨(C3_exhausted_secant_is_unverified powSmall powSmall_two).2.2.2.2.2.1,
    (C3_exhausted_secant_is_unverified powSmall powSmall_two).2.2.2.2.2.2.1,
    (C3_exhausted_secant_is_unverified powSmall powSmall_two).2.2.2.2.2.2.2.1⟩
